import Mathlib

/-!
Verification development for the causal-DAG corruption sampling engine
(src/causal of the robustclevr repository).

Shallow embedding conventions:
* Machine reals are modelled by the rationals.  The transcendental
  special functions used by the code (numpy exp and tanh, scipy
  betaincinv) are external library calls; they are modelled as explicit
  parameters (a SpecialFns record) threaded through the definitions, so
  every theorem quantifies over their interpretation unless it needs a
  concrete one.
* The shared numpy Generator is modelled positionally: the seeded
  generator is an abstract sequence of rationals (RStream), and each
  distribution call (normal, uniform, integers) consumes exactly one
  element of the sequence and applies a distribution-specific transform.
  The code never relies on distributional facts, only on the order and
  count of draws, which this abstraction preserves.
* Python dicts that the code reads with a fixed key set are modelled as
  structures with Option fields (a missing key is Option.none); ordered
  dicts holding sample outputs are modelled as association lists with
  update-in-place-or-append assignment (dictSet below).
* Python assertions and exceptions are modelled with Except String.
-/

namespace Causal

/-- Python-like scalar values appearing in config fields and sampled
output entries. -/
inductive PyVal where
  | num (q : ℚ)
  | bool (b : Bool)
  | str (s : String)
  | none
  deriving Repr, DecidableEq

/-- Numeric coercion as Python multiplication would accept it: floats
and ints are numbers, and bool is an int subclass; strings and None
raise a TypeError. -/
def pyToNum : PyVal → Except String ℚ
  | .num q => .ok q
  | .bool b => .ok (if b then 1 else 0)
  | .str _ => .error "TypeError: non-numeric value"
  | .none => .error "TypeError: non-numeric value"

/-- Assignment into a Python (ordered) dict: if the key is present its
value is replaced in place, otherwise the pair is appended. -/
def dictSet {α : Type} : List (String × α) → String → α → List (String × α)
  | [], k, v => [(k, v)]
  | (k', v') :: rest, k, v =>
      if k' = k then (k', v) :: rest else (k', v') :: dictSet rest k v

/-- Lookup in a Python dict (first binding wins; the lists built by
dictSet never hold duplicate keys). -/
def dictGet {α : Type} (l : List (String × α)) (k : String) : Option α :=
  (l.find? (fun p => p.1 = k)).map Prod.snd

/-- Abstract seeded random stream: the sequence of variates the numpy
Generator would produce. -/
abbrev RStream : Type := ℕ → ℚ

/-- One raw draw at position pos. -/
def rawDraw (σ : RStream) (pos : ℕ) : ℚ × ℕ := (σ pos, pos + 1)

/-- rng.normal(mu, std): one draw, affinely transformed. -/
def rngNormal (σ : RStream) (mu std : ℚ) (pos : ℕ) : ℚ × ℕ :=
  let (z, pos') := rawDraw σ pos
  (mu + std * z, pos')

/-- rng.uniform(lo, hi): one draw, affinely transformed. -/
def rngUniform (σ : RStream) (lo hi : ℚ) (pos : ℕ) : ℚ × ℕ :=
  let (u, pos') := rawDraw σ pos
  (lo + (hi - lo) * u, pos')

/-- rng.integers(2): one draw, mapped into the set containing 0 and 1. -/
def rngIntegersTwo (σ : RStream) (pos : ℕ) : ℕ × ℕ :=
  let (u, pos') := rawDraw σ pos
  ((if u < 1/2 then 0 else 1), pos')

/-- Interpretations of the external special functions (numpy exp and
tanh, scipy betaincinv). -/
structure SpecialFns where
  exp : ℚ → ℚ
  tanh : ℚ → ℚ
  betaincinv : ℚ → ℚ → ℚ → ℚ

/-- Simple concrete interpretation used for witnesses and
counterexamples; the theorems about structure and determinism hold for
every interpretation. -/
def fnsId : SpecialFns :=
  { exp := fun _ => 1, tanh := fun x => x, betaincinv := fun _ _ q => q }

/-- WeightedSumNode.set_activation: the non-linear activation chosen by
activation_type; an unrecognized name calls sys.exit, modelled as
Option.none. -/
def activation_fn (fns : SpecialFns) (activation_type : String) (x : ℚ) : Option ℚ :=
  if activation_type = "sigmoid" then some (1 / (1 + fns.exp (-x)))
  else if activation_type = "tanh" then some ((fns.tanh x + 1) / 2)
  else none

/-- WeightedSumNode.get_severity_from_render_value, as a function of the
relevant node fields; an invalid corruption_type calls sys.exit,
modelled as Option.none. -/
def get_severity_from_render_value (corruption_type : String)
    (min_val max_val standard render_value : ℚ) : Option ℚ :=
  if corruption_type = "increasing" then
    some ((render_value - min_val) / (max_val - min_val))
  else if corruption_type = "decreasing" then
    some ((max_val - render_value) / (max_val - min_val))
  else if corruption_type = "centered" then
    some (|render_value - standard| / max |max_val - standard| |min_val - standard|)
  else none

/-- WeightedSumNode.get_render_value_from_severity; the centered branch
consumes one rng.integers(2) draw to pick a sign. -/
def get_render_value_from_severity (σ : RStream) (corruption_type : String)
    (min_val max_val standard severity : ℚ) (pos : ℕ) : Option (ℚ × ℕ) :=
  if corruption_type = "increasing" then
    some (min_val + severity * (max_val - min_val), pos)
  else if corruption_type = "decreasing" then
    some (min_val + (1 - severity) * (max_val - min_val), pos)
  else if corruption_type = "centered" then
    let max_distance := max |max_val - standard| |min_val - standard|
    let distance := severity * max_distance
    let (k, pos') := rngIntegersTwo σ pos
    some (standard + distance * ((k : ℚ) * 2 - 1), pos')
  else none

/-- Bias determination in WeightedSumNode.__init__.  Python semantics:
isinstance(bias, float) or isinstance(bias, int) is true for numbers AND
for booleans (bool is an int subclass), in which case float(bias) is
used; only then is the elif bias == True or bias == "random" branch
reached, so only the string "random" can trigger the unit-normal draw. -/
def computeBias (σ : RStream) (bias : PyVal) (pos : ℕ) : ℚ × ℕ :=
  match bias with
  | .num q => (q, pos)
  | .bool b => ((if b then 1 else 0), pos)
  | .str s => if s = "random" then rngNormal σ 0 1 pos else (0, pos)
  | .none => (0, pos)

/-- Edge-weight sampling loop in WeightedSumNode.__init__: one
uniform(-1,1) draw per element of the parents list, stored keyed by the
parent name (a duplicated name is overwritten, as in a Python dict). -/
def sampleEdgeWeights (σ : RStream) : List String → ℕ → List (String × ℚ) → List (String × ℚ) × ℕ
  | [], pos, acc => (acc, pos)
  | p :: ps, pos, acc =>
      let (w, pos') := rngUniform σ (-1) 1 pos
      sampleEdgeWeights σ ps pos' (dictSet acc p w)

/-- Instantiated Node objects (src/causal/node_samplers).  Parent Node
references are modelled by the parent names, which is all the code ever
reads from them (parent.name). -/
inductive NodeObj where
  | ws (name : String) (parents : List String) (parameter : String)
      (defaults : List (String × PyVal))
      (min_val max_val extreme standard beta_a beta_b : ℚ)
      (corruption_type : String) (bias std : ℚ) (activation_type : String)
      (edge_weights : List (String × ℚ))
  | const (name : String) (parents : List String) (parameter : String)
      (defaults : List (String × PyVal)) (render_value severity_value : ℚ)
  deriving Repr, DecidableEq

def NodeObj.name : NodeObj → String
  | .ws n _ _ _ _ _ _ _ _ _ _ _ _ _ _ => n
  | .const n _ _ _ _ _ => n

def NodeObj.parentNames : NodeObj → List String
  | .ws _ ps _ _ _ _ _ _ _ _ _ _ _ _ _ => ps
  | .const _ ps _ _ _ _ => ps

def NodeObj.parameter : NodeObj → String
  | .ws _ _ pm _ _ _ _ _ _ _ _ _ _ _ _ => pm
  | .const _ _ pm _ _ _ => pm

def NodeObj.defaults : NodeObj → List (String × PyVal)
  | .ws _ _ _ d _ _ _ _ _ _ _ _ _ _ _ => d
  | .const _ _ _ d _ _ => d

/-- Sampled output entry of one node: an ordered dict from parameter
names to values. -/
abbrev Entry : Type := List (String × PyVal)

/-- Accumulated sample results: ordered dict from node name to entry. -/
abbrev SampleMap : Type := List (String × Entry)

/-- Weighted-sum accumulation loop of WeightedSumNode.sampling_function:
total starts at 0 and adds edge_weights[parent.name] multiplied by
parent_samples[parent.name]["severity"] for each parent in order.
Missing keys are KeyErrors and non-numeric severities are TypeErrors. -/
def sumParentTerms (edge_weights : List (String × ℚ)) (parent_samples : SampleMap) :
    List String → ℚ → Except String ℚ
  | [], acc => .ok acc
  | p :: ps, acc =>
    match dictGet edge_weights p with
    | Option.none => .error "KeyError: edge_weights"
    | some w =>
      match dictGet parent_samples p with
      | Option.none => .error "KeyError: parent_samples"
      | some entry =>
        match dictGet entry "severity" with
        | Option.none => .error "KeyError: severity"
        | some pv =>
          match pyToNum pv with
          | .error e => .error e
          | .ok s => sumParentTerms edge_weights parent_samples ps (acc + w * s)

/-- WeightedSumNode.sampling_function: weighted sum of parent
severities, plus one Normal(bias, std) draw, squashed by the activation
into a quantile, pushed through the inverse regularized incomplete Beta
function, rescaled to the render range, and converted to a severity by
the corruption-type policy. -/
def ws_sampling_function (fns : SpecialFns) (σ : RStream)
    (parents : List String) (min_val max_val standard beta_a beta_b : ℚ)
    (corruption_type : String) (bias std : ℚ) (activation_type : String)
    (edge_weights : List (String × ℚ)) (parent_samples : SampleMap) (pos : ℕ) :
    Except String ((ℚ × ℚ) × ℕ) := do
  let total0 ← sumParentTerms edge_weights parent_samples parents 0
  let (noise, pos') := rngNormal σ bias std pos
  let total := total0 + noise
  match activation_fn fns activation_type total with
  | Option.none => .error "invalid activation function"
  | some quantile =>
    let x := fns.betaincinv beta_a beta_b quantile
    let render_value := min_val + x * (max_val - min_val)
    match get_severity_from_render_value corruption_type min_val max_val standard render_value with
    | Option.none => .error "invalid corruption_type"
    | some severity => .ok ((render_value, severity), pos')

/-- Node.sampling_function dispatch: a ConstantNode returns its stored
pair ignoring parents and the random stream. -/
def sampling_function (fns : SpecialFns) (σ : RStream) (node : NodeObj)
    (parent_samples : SampleMap) (pos : ℕ) : Except String ((ℚ × ℚ) × ℕ) :=
  match node with
  | .const _ _ _ _ rv sv => .ok ((rv, sv), pos)
  | .ws _ parents _ _ min_val max_val _ standard beta_a beta_b corruption_type
      bias std activation_type edge_weights =>
    ws_sampling_function fns σ parents min_val max_val standard beta_a beta_b
      corruption_type bias std activation_type edge_weights parent_samples pos

/-- Node.causal_func: wraps the sampled pair into the ordered output
entry, then merges the defaults. -/
def causal_func (fns : SpecialFns) (σ : RStream) (node : NodeObj)
    (parent_samples : SampleMap) (pos : ℕ) : Except String (Entry × ℕ) := do
  let ((render_value, severity_value), pos') ← sampling_function fns σ node parent_samples pos
  let samples : Entry := dictSet [] node.parameter (.num render_value)
  let samples := dictSet samples "severity" (.num severity_value)
  let samples := dictSet samples "sampled" (.str node.parameter)
  let samples := node.defaults.foldl (fun acc pd => dictSet acc pd.1 pd.2) samples
  .ok (samples, pos')

/-- Concrete stream enumerating the naturals, used in closed witnesses
and counterexamples. -/
def sigmaNat : RStream := fun n => (n : ℚ)

/-- Helper: the weighted-sum loop computes the sum of the per-parent
products when every parent has a stored weight and a numeric severity. -/
theorem sumParentTerms_eq (edge_weights : List (String × ℚ)) (parent_samples : SampleMap)
    (w s : String → ℚ) :
    ∀ (l : List String) (acc : ℚ),
      (∀ p ∈ l, dictGet edge_weights p = some (w p)) →
      (∀ p ∈ l, ∃ e, dictGet parent_samples p = some e ∧
          dictGet e "severity" = some (.num (s p))) →
      sumParentTerms edge_weights parent_samples l acc
        = .ok (acc + (l.map (fun p => w p * s p)).sum) := by
  intro l
  induction l with
  | nil => intro acc _ _; simp [sumParentTerms]
  | cons p ps ih =>
    intro acc hw hps
    have hwp := hw p (by simp)
    obtain ⟨e, he, hsev⟩ := hps p (by simp)
    have := ih (acc + w p * s p)
      (fun q hq => hw q (by simp [hq]))
      (fun q hq => hps q (by simp [hq]))
    simp only [sumParentTerms, hwp, he, hsev, pyToNum, this, List.map_cons, List.sum_cons]
    congr 1
    ring

/-- C1: one call to the sampling function of a valid WeightedSumNode
consumes exactly one Normal(bias, std) draw and returns the render value
min_val + betaincinv(beta_a, beta_b, activation(total)) * (max_val - min_val)
where total is the weighted sum of the parent severities plus the noise
draw, together with the severity obtained from the severity_from_render
policy applied to that render value. -/
theorem C1_ws_sampling_formula (fns : SpecialFns) (σ : RStream)
    (parents : List String) (min_val max_val extreme standard beta_a beta_b : ℚ)
    (corruption_type : String) (bias std : ℚ) (activation_type : String)
    (edge_weights : List (String × ℚ)) (parent_samples : SampleMap) (pos : ℕ)
    (w s : String → ℚ)
    (hmm : min_val < max_val) (hba : 0 < beta_a) (hbb : 0 < beta_b) (hstd : 0 < std)
    (hact : activation_type = "sigmoid" ∨ activation_type = "tanh")
    (hct : corruption_type = "increasing" ∨ corruption_type = "decreasing" ∨
      corruption_type = "centered")
    (hw : ∀ p ∈ parents, dictGet edge_weights p = some (w p))
    (hps : ∀ p ∈ parents, ∃ e, dictGet parent_samples p = some e ∧
      dictGet e "severity" = some (.num (s p))) :
    ∃ quantile severity,
      activation_fn fns activation_type
        ((parents.map (fun p => w p * s p)).sum + (bias + std * σ pos)) = some quantile ∧
      sampling_function fns σ
        (.ws "n" parents "prm" [] min_val max_val extreme standard beta_a beta_b
          corruption_type bias std activation_type edge_weights) parent_samples pos
        = .ok ((min_val + fns.betaincinv beta_a beta_b quantile * (max_val - min_val),
               severity), pos + 1) ∧
      get_severity_from_render_value corruption_type min_val max_val standard
        (min_val + fns.betaincinv beta_a beta_b quantile * (max_val - min_val))
        = some severity := by
  have hsum := sumParentTerms_eq edge_weights parent_samples w s parents 0 hw hps
  have htot : (0 : ℚ) + (parents.map (fun p => w p * s p)).sum + (bias + std * σ pos)
      = (parents.map (fun p => w p * s p)).sum + (bias + std * σ pos) := by ring
  set total := (parents.map (fun p => w p * s p)).sum + (bias + std * σ pos) with hdeftot
  have hq : ∃ quantile, activation_fn fns activation_type total = some quantile := by
    rcases hact with h | h <;> subst h <;> exact ⟨_, rfl⟩
  obtain ⟨quantile, hquant⟩ := hq
  set render := min_val + fns.betaincinv beta_a beta_b quantile * (max_val - min_val)
    with hdefrender
  have hsev : ∃ severity,
      get_severity_from_render_value corruption_type min_val max_val standard render
        = some severity := by
    rcases hct with h | h | h <;> subst h <;> exact ⟨_, rfl⟩
  obtain ⟨severity, hsevr⟩ := hsev
  refine ⟨quantile, severity, hquant, ?_, hsevr⟩
  simp only [sampling_function, ws_sampling_function, hsum, rngNormal, rawDraw, htot,
    bind, Except.bind]
  simp only [← hdeftot, hquant, hsevr]

/-- Witness for C1 at a concrete node, stream and parent sample. -/
theorem C1_ws_sampling_formula_witness :
    ∃ quantile severity,
      activation_fn fnsId "tanh"
        (([("p")].map (fun p => (fun _ => (1:ℚ)/2) p * (fun _ => (1:ℚ)/2) p)).sum
          + (0 + 1 * sigmaNat 0)) = some quantile ∧
      sampling_function fnsId sigmaNat
        (.ws "n" ["p"] "prm" [] 0 1 1 0 1 1 "increasing" 0 1 "tanh" [("p", 1/2)])
        [("p", [("severity", .num (1/2))])] 0
        = .ok ((0 + fnsId.betaincinv 1 1 quantile * (1 - 0), severity), 0 + 1) ∧
      get_severity_from_render_value "increasing" 0 1 0
        (0 + fnsId.betaincinv 1 1 quantile * (1 - 0)) = some severity :=
  C1_ws_sampling_formula fnsId sigmaNat ["p"] 0 1 1 0 1 1 "increasing" 0 1 "tanh"
    [("p", 1/2)] [("p", [("severity", .num (1/2))])] 0
    (fun _ => 1/2) (fun _ => 1/2)
    (by norm_num) (by norm_num) (by norm_num) (by norm_num)
    (Or.inr rfl) (Or.inl rfl)
    (by intro p hp; simp at hp; subst hp; rfl)
    (by intro p hp; simp at hp; subst hp; exact ⟨_, rfl, rfl⟩)

/-- C5 (code behaviour at the failing input): the Python isinstance
check treats the boolean True as an int, so bias equal to True becomes
the constant 1.0 without consuming any draw, while only the string
"random" triggers the unit-normal draw; numeric bias is kept and any
other value becomes 0. -/
theorem C5_bias_bool_true_is_constant :
    computeBias sigmaNat (.bool true) 3 = (1, 3) ∧
    computeBias sigmaNat (.str "random") 3 = (3, 4) ∧
    computeBias sigmaNat (.num (7/2)) 3 = (7/2, 3) ∧
    computeBias sigmaNat (.bool false) 3 = (0, 3) ∧
    computeBias sigmaNat PyVal.none 3 = (0, 3) := by
  refine ⟨rfl, ?_, rfl, rfl, rfl⟩
  simp [computeBias, rngNormal, rawDraw, sigmaNat]

/-- C6: for the increasing and decreasing corruption types, the computed
severity lies in the unit interval and the severity-to-render map sends
it back to the original render value exactly, without touching the
random stream. -/
theorem C6_monotonic_inverse_roundtrip (σ : RStream) (ct : String)
    (min_val max_val standard r : ℚ) (pos : ℕ)
    (hct : ct = "increasing" ∨ ct = "decreasing")
    (hmm : min_val < max_val) (hlo : min_val ≤ r) (hhi : r ≤ max_val) :
    ∃ sev, get_severity_from_render_value ct min_val max_val standard r = some sev ∧
      0 ≤ sev ∧ sev ≤ 1 ∧
      get_render_value_from_severity σ ct min_val max_val standard sev pos
        = some (r, pos) := by
  have hpos : (0 : ℚ) < max_val - min_val := by linarith
  have hne : max_val - min_val ≠ 0 := ne_of_gt hpos
  rcases hct with h | h <;> subst h
  · refine ⟨(r - min_val) / (max_val - min_val), rfl, ?_, ?_, ?_⟩
    · exact div_nonneg (by linarith) (le_of_lt hpos)
    · exact (div_le_one hpos).mpr (by linarith)
    · have e : get_render_value_from_severity σ "increasing" min_val max_val standard
          ((r - min_val) / (max_val - min_val)) pos
          = some (min_val + (r - min_val) / (max_val - min_val) * (max_val - min_val),
                  pos) := rfl
      rw [e, div_mul_cancel₀ _ hne]
      norm_num
  · refine ⟨(max_val - r) / (max_val - min_val), rfl, ?_, ?_, ?_⟩
    · exact div_nonneg (by linarith) (le_of_lt hpos)
    · exact (div_le_one hpos).mpr (by linarith)
    · have e : get_render_value_from_severity σ "decreasing" min_val max_val standard
          ((max_val - r) / (max_val - min_val)) pos
          = some (min_val + (1 - (max_val - r) / (max_val - min_val))
              * (max_val - min_val), pos) := rfl
      have halg : min_val + (1 - (max_val - r) / (max_val - min_val))
          * (max_val - min_val) = r := by
        field_simp
      rw [e, halg]

/-- Witness for C6 at concrete values (increasing branch, render 3 in
the range 1 to 5). -/
theorem C6_monotonic_inverse_roundtrip_witness :
    ∃ sev, get_severity_from_render_value "increasing" 1 5 0 3 = some sev ∧
      0 ≤ sev ∧ sev ≤ 1 ∧
      get_render_value_from_severity sigmaNat "increasing" 1 5 0 sev 0 = some (3, 0) :=
  C6_monotonic_inverse_roundtrip sigmaNat "increasing" 1 5 0 3 0 (Or.inl rfl)
    (by norm_num) (by norm_num) (by norm_num)

/-- C7: for the centered corruption type the round trip preserves the
distance to the standard value for every outcome of the sign draw (the
result is standard plus or minus the recovered distance, the sign chosen
by one rng.integers(2) draw), and both signs are realized by suitable
streams, so the inverse is non-deterministic. -/
theorem C7_centered_inverse_magnitude (min_val max_val standard r : ℚ)
    (hmm : min_val < max_val) (hlo : min_val ≤ r) (hhi : r ≤ max_val) :
    ∃ sev, get_severity_from_render_value "centered" min_val max_val standard r
        = some sev ∧
      (∀ (σ : RStream) (pos : ℕ), ∃ ε : ℚ, (ε = 1 ∨ ε = -1) ∧
        get_render_value_from_severity σ "centered" min_val max_val standard sev pos
          = some (standard + (sev * max |max_val - standard| |min_val - standard|) * ε,
                  pos + 1) ∧
        |(standard + (sev * max |max_val - standard| |min_val - standard|) * ε)
          - standard| = |r - standard|) ∧
      (∀ pos, get_render_value_from_severity (fun _ => 0) "centered" min_val max_val
          standard sev pos
        = some (standard + (sev * max |max_val - standard| |min_val - standard|) * (-1),
                pos + 1)) ∧
      (∀ pos, get_render_value_from_severity (fun _ => 1) "centered" min_val max_val
          standard sev pos
        = some (standard + (sev * max |max_val - standard| |min_val - standard|) * 1,
                pos + 1)) := by
  set D := max |max_val - standard| |min_val - standard| with hD
  have hDpos : 0 < D := by
    rcases le_or_lt standard min_val with h | h
    · have : 0 < |max_val - standard| := abs_pos.mpr (by linarith)
      exact lt_of_lt_of_le this (le_max_left _ _)
    · have : 0 < |min_val - standard| := abs_pos.mpr (by
        intro h0
        have : min_val = standard := by linarith [sub_eq_zero.mp h0]
        linarith)
      exact lt_of_lt_of_le this (le_max_right _ _)
  have hDne : D ≠ 0 := ne_of_gt hDpos
  set sev := |r - standard| / D with hsev
  have hmag : sev * D = |r - standard| := div_mul_cancel₀ _ hDne
  have hsevnn : 0 ≤ sev := div_nonneg (abs_nonneg _) (le_of_lt hDpos)
  have hcent : ∀ (σ : RStream) (pos : ℕ),
      get_render_value_from_severity σ "centered" min_val max_val standard sev pos
        = some (standard + (sev * D) *
            ((((if σ pos < 1/2 then (0:ℕ) else 1) : ℕ) : ℚ) * 2 - 1), pos + 1) := by
    intro σ pos
    rfl
  refine ⟨sev, rfl, ?_, ?_, ?_⟩
  · intro σ pos
    refine ⟨(((if σ pos < 1/2 then (0:ℕ) else 1) : ℕ) : ℚ) * 2 - 1, ?_, hcent σ pos, ?_⟩
    · by_cases h : σ pos < 1/2
      · right; rw [if_pos h]; norm_num
      · left; rw [if_neg h]; norm_num
    · have habs : |(sev * D) * ((((if σ pos < 1/2 then (0:ℕ) else 1) : ℕ) : ℚ) * 2 - 1)|
          = sev * D := by
        rw [abs_mul]
        have h1 : |(((if σ pos < 1/2 then (0:ℕ) else 1) : ℕ) : ℚ) * 2 - 1| = 1 := by
          by_cases h : σ pos < 1/2
          · rw [if_pos h]; norm_num
          · rw [if_neg h]; norm_num
        rw [h1, mul_one, abs_of_nonneg (mul_nonneg hsevnn (le_of_lt hDpos))]
      calc |(standard + (sev * D) *
              ((((if σ pos < 1/2 then (0:ℕ) else 1) : ℕ) : ℚ) * 2 - 1)) - standard|
          = |(sev * D) * ((((if σ pos < 1/2 then (0:ℕ) else 1) : ℕ) : ℚ) * 2 - 1)| := by
            congr 1; ring
        _ = sev * D := habs
        _ = |r - standard| := hmag
  · intro pos
    have := hcent (fun _ => 0) pos
    rw [this]
    norm_num
  · intro pos
    have := hcent (fun _ => 1) pos
    rw [this]
    norm_num

/-- Witness for C7 at concrete values (range 0 to 4, standard 1,
render 2). -/
theorem C7_centered_inverse_magnitude_witness :
    ∃ sev, get_severity_from_render_value "centered" 0 4 1 2 = some sev ∧
      (∀ (σ : RStream) (pos : ℕ), ∃ ε : ℚ, (ε = 1 ∨ ε = -1) ∧
        get_render_value_from_severity σ "centered" 0 4 1 sev pos
          = some (1 + (sev * max |4 - 1| |0 - 1|) * ε, pos + 1) ∧
        |(1 + (sev * max |4 - 1| |0 - 1|) * ε) - 1| = |2 - 1|) ∧
      (∀ pos, get_render_value_from_severity (fun _ => 0) "centered" 0 4 1 sev pos
        = some (1 + (sev * max |4 - 1| |0 - 1|) * (-1), pos + 1)) ∧
      (∀ pos, get_render_value_from_severity (fun _ => 1) "centered" 0 4 1 sev pos
        = some (1 + (sev * max |4 - 1| |0 - 1|) * 1, pos + 1)) := by
  have h := C7_centered_inverse_magnitude 0 4 1 2 (by norm_num) (by norm_num) (by norm_num)
  exact h

/-- Intervention request attached to a node spec. -/
structure InterveneSpec where
  severity_value : Option ℚ
  render_value : Option ℚ
  deriving Repr, DecidableEq

/-- One entry of the node_list in a config file.  The Python side is a
dict; every key the code ever reads is a field here, absent keys are
Option.none. -/
structure NodeSpec where
  name : Option String
  type : Option String
  corruption_func : Option String
  parameter : Option String
  defaults : Option (List (String × PyVal))
  min_val : Option ℚ
  max_val : Option ℚ
  extreme : Option ℚ
  standard : Option ℚ
  beta_a : Option ℚ
  beta_b : Option ℚ
  std : Option ℚ
  corruption_type : Option String
  activation_type : Option String
  bias : Option PyVal
  render_value : Option ℚ
  severity_value : Option ℚ
  intervene : Option InterveneSpec
  edge_weights : Option (List (String × ℚ))
  deriving Repr, DecidableEq

/-- The declarative root config object.  The original_configuration
echo written by DAG.save is omitted: it is write-only provenance, never
read back by DAG.load. -/
structure Config where
  dag_generation_method : Option String
  node_list : Option (List NodeSpec)
  edge_list : Option (List (String × String))
  loadable : Option Bool
  seed : Option ℕ
  deriving Repr, DecidableEq

/-- The kwargs dict a node constructor receives: the spec fields after
popping type and corruption_func, plus the runtime entries parents
(modelled by the non-root parent names) and rng (a presence flag, since
the shared stream is threaded separately). -/
structure Params where
  name : Option String
  parents : Option (List String)
  parameter : Option String
  defaults : Option (List (String × PyVal))
  min_val : Option ℚ
  max_val : Option ℚ
  extreme : Option ℚ
  standard : Option ℚ
  beta_a : Option ℚ
  beta_b : Option ℚ
  std : Option ℚ
  corruption_type : Option String
  activation_type : Option String
  bias : Option PyVal
  render_value : Option ℚ
  severity_value : Option ℚ
  intervene : Option InterveneSpec
  edge_weights : Option (List (String × ℚ))
  rng : Option Unit
  deriving Repr, DecidableEq

def Params.empty : Params :=
  { name := Option.none, parents := Option.none, parameter := Option.none,
    defaults := Option.none, min_val := Option.none, max_val := Option.none,
    extreme := Option.none, standard := Option.none, beta_a := Option.none,
    beta_b := Option.none, std := Option.none, corruption_type := Option.none,
    activation_type := Option.none, bias := Option.none, render_value := Option.none,
    severity_value := Option.none, intervene := Option.none,
    edge_weights := Option.none, rng := Option.none }

/-- Presence of a dict key in the kwargs dict. -/
def Params.hasField (p : Params) : String → Bool
  | "name" => p.name.isSome
  | "parents" => p.parents.isSome
  | "parameter" => p.parameter.isSome
  | "defaults" => p.defaults.isSome
  | "min_val" => p.min_val.isSome
  | "max_val" => p.max_val.isSome
  | "extreme" => p.extreme.isSome
  | "standard" => p.standard.isSome
  | "beta_a" => p.beta_a.isSome
  | "beta_b" => p.beta_b.isSome
  | "std" => p.std.isSome
  | "corruption_type" => p.corruption_type.isSome
  | "activation_type" => p.activation_type.isSome
  | "bias" => p.bias.isSome
  | "render_value" => p.render_value.isSome
  | "severity_value" => p.severity_value.isSome
  | "intervene" => p.intervene.isSome
  | "edge_weights" => p.edge_weights.isSome
  | "rng" => p.rng.isSome
  | _ => false

/-- filter_dict in dag.py: keeps exactly the listed keys.  The Python
comprehension raises KeyError on a listed-but-missing key; that path is
unreachable because ensure_valid_node has already checked presence, and
the later constructor match reports the error instead. -/
def filter_dict (fields : List String) (p : Params) : Params :=
  { name := if "name" ∈ fields then p.name else Option.none
    parents := if "parents" ∈ fields then p.parents else Option.none
    parameter := if "parameter" ∈ fields then p.parameter else Option.none
    defaults := if "defaults" ∈ fields then p.defaults else Option.none
    min_val := if "min_val" ∈ fields then p.min_val else Option.none
    max_val := if "max_val" ∈ fields then p.max_val else Option.none
    extreme := if "extreme" ∈ fields then p.extreme else Option.none
    standard := if "standard" ∈ fields then p.standard else Option.none
    beta_a := if "beta_a" ∈ fields then p.beta_a else Option.none
    beta_b := if "beta_b" ∈ fields then p.beta_b else Option.none
    std := if "std" ∈ fields then p.std else Option.none
    corruption_type := if "corruption_type" ∈ fields then p.corruption_type else Option.none
    activation_type := if "activation_type" ∈ fields then p.activation_type else Option.none
    bias := if "bias" ∈ fields then p.bias else Option.none
    render_value := if "render_value" ∈ fields then p.render_value else Option.none
    severity_value := if "severity_value" ∈ fields then p.severity_value else Option.none
    intervene := if "intervene" ∈ fields then p.intervene else Option.none
    edge_weights := if "edge_weights" ∈ fields then p.edge_weights else Option.none
    rng := if "rng" ∈ fields then p.rng else Option.none }

/-- Node.necessary_fields. -/
def node_necessary_fields : List String := ["name", "parents", "parameter", "defaults"]

/-- WeightedSumNode.necessary_fields. -/
def ws_necessary_fields : List String :=
  ["name", "parents", "parameter", "defaults", "min_val", "max_val", "extreme",
   "standard", "beta_a", "beta_b", "corruption_type", "bias", "std",
   "activation_type", "rng"]

/-- ConstantNode.necessary_fields. -/
def const_necessary_fields : List String :=
  ["name", "parents", "parameter", "defaults", "render_value", "severity_value"]

/-- Presence assertions over a list of required keys. -/
def ensureFields (p : Params) : List String → Except String Unit
  | [] => .ok ()
  | f :: fs =>
    if p.hasField f then ensureFields p fs
    else .error ("Error in Node creation; field not given: " ++ f)

/-- WeightedSumNode.ensure_valid_node. -/
def ws_ensure_valid_node (p : Params) : Except String Unit := do
  ensureFields p node_necessary_fields
  ensureFields p ws_necessary_fields
  match p.min_val, p.max_val, p.corruption_type, p.beta_a, p.beta_b, p.std,
      p.activation_type with
  | some mn, some mx, some ct, some ba, some bb, some sd, some act =>
    if mn < mx then
      if ct = "increasing" ∨ ct = "decreasing" ∨ ct = "centered" then
        if 0 < ba then
          if 0 < bb then
            if 0 < sd then
              if act = "sigmoid" ∨ act = "tanh" then .ok ()
              else .error "AssertionError: activation_type"
            else .error "AssertionError: std"
          else .error "AssertionError: beta_b"
        else .error "AssertionError: beta_a"
      else .error "AssertionError: corruption_type"
    else .error "AssertionError: min_val < max_val"
  | _, _, _, _, _, _, _ => .error "AssertionError: missing field"

/-- ConstantNode.ensure_valid_node. -/
def const_ensure_valid_node (p : Params) : Except String Unit := do
  ensureFields p node_necessary_fields
  ensureFields p const_necessary_fields
  match p.severity_value with
  | some sv =>
    if 0 ≤ sv ∧ sv ≤ 1 then .ok ()
    else .error "AssertionError: severity_value out of range"
  | Option.none => .error "AssertionError: missing severity_value"

/-- WeightedSumNode.__init__: set_activation (which exits on a bad
activation name), then the bias determination, then one uniform(-1,1)
edge-weight draw per parent. -/
def mkWeightedSumNode (σ : RStream) (p : Params) (pos : ℕ) :
    Except String (NodeObj × ℕ) :=
  match p.name, p.parents, p.parameter, p.defaults, p.min_val, p.max_val, p.extreme,
      p.standard, p.beta_a, p.beta_b, p.corruption_type, p.bias, p.std,
      p.activation_type, p.rng with
  | some nm, some prs, some prm, some dfl, some mn, some mx, some ex, some st,
      some ba, some bb, some ct, some bv, some sd, some act, some _ =>
    if act = "sigmoid" ∨ act = "tanh" then
      let (b, pos1) := computeBias σ bv pos
      let (ew, pos2) := sampleEdgeWeights σ prs pos1 []
      .ok (.ws nm prs prm dfl mn mx ex st ba bb ct b sd act ew, pos2)
    else .error "Error: invalid activation function"
  | _, _, _, _, _, _, _, _, _, _, _, _, _, _, _ =>
    .error "TypeError: missing WeightedSumNode argument"

/-- ConstantNode.__init__. -/
def mkConstantNode (p : Params) : Except String NodeObj :=
  match p.name, p.parents, p.parameter, p.defaults, p.render_value,
      p.severity_value with
  | some nm, some prs, some prm, some dfl, some rv, some sv =>
    .ok (.const nm prs prm dfl rv sv)
  | _, _, _, _, _, _ => .error "TypeError: missing ConstantNode argument"

/-- Method dispatch for get_severity_from_render_value on a node
object. -/
def nodeSeverityFromRender (node : NodeObj) (render : ℚ) : Option ℚ :=
  match node with
  | .ws _ _ _ _ mn mx _ st _ _ ct _ _ _ _ =>
    get_severity_from_render_value ct mn mx st render
  | .const _ _ _ _ _ sv => some sv

/-- Method dispatch for get_render_value_from_severity on a node
object. -/
def nodeRenderFromSeverity (σ : RStream) (node : NodeObj) (sev : ℚ) (pos : ℕ) :
    Option (ℚ × ℕ) :=
  match node with
  | .ws _ _ _ _ mn mx _ st _ _ ct _ _ _ _ =>
    get_render_value_from_severity σ ct mn mx st sev pos
  | .const _ _ _ _ rv _ => some (rv, pos)

/-- Node to_yaml merged with the per-node processing in DAG.to_yaml:
kind-specific internal state plus name, parameter, type, the
corruption_func looked up from the node list, and defaults dropped when
empty. -/
def nodeToYaml (corruption_func : String) : NodeObj → NodeSpec
  | .ws nm _ prm dfl mn mx ex st ba bb ct b sd act ew =>
    { name := some nm, type := some "WeightedSumNode",
      corruption_func := some corruption_func, parameter := some prm,
      defaults := if dfl.isEmpty then Option.none else some dfl,
      min_val := some mn, max_val := some mx, extreme := some ex,
      standard := some st, beta_a := some ba, beta_b := some bb, std := some sd,
      corruption_type := some ct, activation_type := some act,
      bias := some (.num b), render_value := Option.none,
      severity_value := Option.none, intervene := Option.none,
      edge_weights := some ew }
  | .const nm _ prm dfl rv sv =>
    { name := some nm, type := some "ConstantNode",
      corruption_func := some corruption_func, parameter := some prm,
      defaults := if dfl.isEmpty then Option.none else some dfl,
      min_val := Option.none, max_val := Option.none, extreme := Option.none,
      standard := Option.none, beta_a := Option.none, beta_b := Option.none,
      std := Option.none, corruption_type := Option.none,
      activation_type := Option.none, bias := Option.none,
      render_value := some rv, severity_value := some sv,
      intervene := Option.none, edge_weights := Option.none }

/-- Node load: overwrites the kind-specific internal state from a
persisted spec.  Python reads each key with a KeyError on absence; a
non-numeric persisted bias would only crash later at sampling time in
Python, here it is reported at load time (saved configs always carry the
numeric frozen bias, so no claim can observe the difference).  Note the
Python load does not re-run set_activation, but a loadable config always
carries the same activation_type the node was constructed with, so the
stale-closure behaviour is equally unobservable. -/
def nodeLoad (node : NodeObj) (raw : NodeSpec) : Except String NodeObj :=
  match node with
  | .ws nm prs prm dfl _ _ _ _ _ _ _ _ _ _ _ =>
    match raw.min_val, raw.max_val, raw.extreme, raw.standard, raw.beta_a,
        raw.beta_b, raw.corruption_type, raw.std, raw.activation_type, raw.bias,
        raw.edge_weights with
    | some mn, some mx, some ex, some st, some ba, some bb, some ct, some sd,
        some act, some bv, some ew =>
      match bv with
      | .num b => .ok (.ws nm prs prm dfl mn mx ex st ba bb ct b sd act ew)
      | _ => .error "TypeError: loaded bias is not numeric"
    | _, _, _, _, _, _, _, _, _, _, _ => .error "KeyError in WeightedSumNode.load"
  | .const nm prs prm dfl _ _ =>
    match raw.render_value, raw.severity_value with
    | some rv, some sv => .ok (.const nm prs prm dfl rv sv)
    | _, _ => .error "KeyError in ConstantNode.load"

/-- DAGGenerator.ensure_unique_names: every node has a name, no name is
the reserved string root, and no name repeats. -/
def ensure_unique_names : List NodeSpec → List String → Except String Unit
  | [], _ => .ok ()
  | spec :: rest, seen =>
    match spec.name with
    | Option.none => .error "Error! Each node in the node list must have a name"
    | some nm =>
      if nm = "root" then .error "Error! Cannot have root as a node name"
      else if nm ∈ seen then .error "Error! Multiple nodes with this name"
      else ensure_unique_names rest (seen ++ [nm])

/-- DAGGenerator.ensure_valid_config. -/
def dagGenerator_ensure_valid_config (cfg : Config) : Except String Unit :=
  match cfg.node_list with
  | Option.none => .error "Error! Config file must contain node_list"
  | some nl => ensure_unique_names nl []

/-- Names of the specs in a node list (each has one after
ensure_unique_names). -/
def specNames (nl : List NodeSpec) : List String := nl.filterMap (fun s => s.name)

/-- CustomDAG.ensure_valid_config: edge_list present, every edge
endpoint is a listed node or root, and every listed node (and root)
appears in some edge. -/
def customDAG_ensure_valid_config (cfg : Config) : Except String Unit := do
  dagGenerator_ensure_valid_config cfg
  match cfg.edge_list with
  | Option.none => .error "Error! Config file must contain edge_list"
  | some el =>
    let node_names := specNames (cfg.node_list.getD []) ++ ["root"]
    if el.all (fun e => e.1 ∈ node_names ∧ e.2 ∈ node_names) then
      if node_names.all (fun n => el.any (fun e => e.1 = n ∨ e.2 = n)) then .ok ()
      else .error "Error! Node not in the edge list"
    else .error "Error! No node with this name in node_list"

/-- DAG.get_parents: distinct edge sources feeding the node, in edge
order; a node with no incoming edge is an assertion failure. -/
def get_parents (node_name : String) (edges : List (String × String)) :
    Except String (List String) :=
  let parents := edges.foldl
    (fun acc e => if e.2 = node_name ∧ e.1 ∉ acc then acc ++ [e.1] else acc) []
  if parents.isEmpty then .error "Error! Node has no parents" else .ok parents

/-- DAG.get_node_parameters: first spec with the given name, defaults
defaulted to the empty dict. -/
def get_node_parameters (cfg : Config) (name : String) : Except String NodeSpec :=
  match (cfg.node_list.getD []).find? (fun s => s.name = some name) with
  | Option.none => .error "IndexError: no spec with this name"
  | some spec => .ok { spec with defaults := some (spec.defaults.getD []) }

/-- The kwargs dict built for a node constructor: the fetched spec minus
the popped type and corruption_func, with parents set to the non-root
parent names and the shared rng added. -/
def specToParams (spec : NodeSpec) (parents : List String) : Params :=
  { name := spec.name, parents := some parents, parameter := spec.parameter,
    defaults := spec.defaults, min_val := spec.min_val, max_val := spec.max_val,
    extreme := spec.extreme, standard := spec.standard, beta_a := spec.beta_a,
    beta_b := spec.beta_b, std := spec.std, corruption_type := spec.corruption_type,
    activation_type := spec.activation_type, bias := spec.bias,
    render_value := spec.render_value, severity_value := spec.severity_value,
    intervene := spec.intervene, edge_weights := spec.edge_weights,
    rng := some () }

/-- Mutable state of the construction scan: node_objects and added_nodes
insertion orders (the root sentinel of node_objects is kept implicit and
prepended where membership is tested), and the stream position. -/
structure BuildState where
  node_objects : List (String × NodeObj)
  added_nodes : List (String × String)
  pos : ℕ
  deriving Repr, DecidableEq

/-- Keys of node_objects including the root sentinel. -/
def BuildState.builtNames (st : BuildState) : List String :=
  "root" :: st.node_objects.map Prod.fst

/-- The intervention block of DAG.initialize_nodes_and_edges, exactly as
written: it inspects the intervene key of the ALREADY FILTERED kwargs
dict, derives the missing one of severity_value and render_value through
the constructed node, asserts the severity range, and replaces the node
by a ConstantNode.  Because filter_dict has already dropped intervene
(it is in no necessary_fields list), the Option.none branch is the one
actually taken on every input. -/
def interveneBlock (σ : RStream) (params2 : Params) (node : NodeObj) (pos : ℕ) :
    Except String (NodeObj × ℕ) :=
  match params2.intervene with
  | Option.none => .ok (node, pos)
  | some iv => do
    let (render_value, severity_value, posI) ←
      match iv.severity_value with
      | some sv =>
        match iv.render_value with
        | some rv => Except.ok (rv, sv, pos)
        | Option.none =>
          match nodeRenderFromSeverity σ node sv pos with
          | Option.none => Except.error "Error: invalid corruption_type"
          | some (rv, p2) => Except.ok (rv, sv, p2)
      | Option.none =>
        match iv.render_value with
        | some rv =>
          match nodeSeverityFromRender node rv with
          | Option.none => Except.error "Error: invalid corruption_type"
          | some sv => Except.ok (rv, sv, pos)
        | Option.none =>
          Except.error "Error! Must intervene on severity_value or render_value"
    if 0 ≤ severity_value ∧ severity_value ≤ 1 then do
      let ip : Params :=
        { Params.empty with
          name := params2.name, parameter := params2.parameter,
          defaults := params2.defaults, render_value := some render_value,
          severity_value := some severity_value, parents := params2.parents }
      const_ensure_valid_node ip
      let ip2 := filter_dict const_necessary_fields ip
      let node2 ← mkConstantNode ip2
      .ok (node2, posI)
    else .error "Error! Severity value must be between 0 and 1"

/-- Construction of one node (the body of the for loop in
DAG.initialize_nodes_and_edges once the readiness guard has passed):
fetch the spec, assert type and corruption_func, validate, filter,
construct by registered kind, run the intervention block, and overwrite
internal state when loading. -/
def buildNodeStep (σ : RStream) (cfg : Config) (load : Bool)
    (edges : List (String × String)) (child_name : String) (st : BuildState) :
    Except String BuildState := do
  let child_parents ← get_parents child_name edges
  let parents := child_parents.filter (fun p => p ≠ "root")
  let spec ← get_node_parameters cfg child_name
  match spec.type, spec.corruption_func with
  | some cls, some corruption_func => do
    let node_params := specToParams spec parents
    let (node, params2, pos1) ←
      if cls = "WeightedSumNode" then do
        ws_ensure_valid_node node_params
        let params2 := filter_dict ws_necessary_fields node_params
        let (node, pos1) ← mkWeightedSumNode σ params2 st.pos
        Except.ok (node, params2, pos1)
      else if cls = "ConstantNode" then do
        const_ensure_valid_node node_params
        let params2 := filter_dict const_necessary_fields node_params
        let node ← mkConstantNode params2
        Except.ok (node, params2, st.pos)
      else
        Except.error "AttributeError: kind not in registry"
    let (node, pos2) ← interveneBlock σ params2 node pos1
    let node ←
      if load then do
        match (cfg.node_list.getD []).find? (fun s => s.name = some child_name) with
        | Option.none => Except.error "IndexError: no spec with this name"
        | some raw => nodeLoad node raw
      else Except.ok node
    .ok { node_objects := st.node_objects ++ [(child_name, node)],
          added_nodes := st.added_nodes ++ [(child_name, corruption_func)],
          pos := pos2 }
  | _, _ => .error "Error in Node creation; type or corruption_func not given"

/-- One pass of the for loop over the full spec list: build every spec
that is not yet built and whose parents are all built, flagging whether
any progress was made. -/
def scanPass (σ : RStream) (cfg : Config) (load : Bool)
    (edges : List (String × String)) :
    List NodeSpec → BuildState → Bool → Except String (BuildState × Bool)
  | [], st, added => .ok (st, added)
  | spec :: rest, st, added =>
    match spec.name with
    | Option.none => .error "KeyError: name"
    | some child_name => do
      let child_parents ← get_parents child_name edges
      if child_name ∉ st.builtNames ∧
          (∀ p ∈ child_parents, p ∈ st.builtNames) then do
        let st2 ← buildNodeStep σ cfg load edges child_name st
        scanPass σ cfg load edges rest st2 true
      else
        scanPass σ cfg load edges rest st added

/-- The while loop of DAG.initialize_nodes_and_edges: repeat full scans
until every spec is built; a pass without progress is the cycle
assertion.  The loop adds at least one node per non-failing pass, so the
fuel passed by dagBuild can never run out. -/
def buildLoop (σ : RStream) (cfg : Config) (load : Bool)
    (specs : List NodeSpec) (edges : List (String × String)) :
    ℕ → BuildState → Except String BuildState
  | 0, _ => .error "Error: construction did not terminate"
  | fuel + 1, st =>
    if st.added_nodes.length < specs.length then do
      let (st2, added) ← scanPass σ cfg load edges specs st false
      if added then buildLoop σ cfg load specs edges fuel st2
      else .error "Error! Graph has a cycle"
    else .ok st

/-- Insertion into a networkx node list: first occurrence order, no
duplicates. -/
def ndInsert (l : List String) (x : String) : List String :=
  if x ∈ l then l else l ++ [x]

/-- Node order of the networkx DiGraph: add_nodes_from the sampling dict
keys, then add_edges_from (edge endpoints join at first appearance). -/
def graphNodes (names : List String) (edges : List (String × String)) :
    List String :=
  edges.foldl (fun acc e => ndInsert (ndInsert acc e.1) e.2) names

/-- Distinct in-neighbors of a node, in edge order. -/
def inNeighbors (edges : List (String × String)) (v : String) : List String :=
  edges.foldl (fun acc e => if e.2 = v ∧ e.1 ∉ acc then acc ++ [e.1] else acc) []

/-- One step of the topological sort: the first graph node not yet
emitted whose in-neighbors are all emitted. -/
def topoPick (gnodes : List String) (edges : List (String × String))
    (emitted : List String) : Option String :=
  gnodes.find? (fun v =>
    !(emitted.contains v) && (inNeighbors edges v).all (fun u => emitted.contains u))

def topoSortAux (gnodes : List String) (edges : List (String × String)) :
    ℕ → List String → List String
  | 0, emitted => emitted
  | fuel + 1, emitted =>
    match topoPick gnodes edges emitted with
    | Option.none => emitted
    | some v => topoSortAux gnodes edges fuel (emitted ++ [v])

/-- Stand-in for nx.topological_sort: Kahn-style, emitting nodes once
all their in-neighbors are emitted.  The exact tie-break among
simultaneously ready nodes is a networkx library detail; every claim in
scope is insensitive to it (it compares two runs of the same engine or
asserts order validity), so the deterministic first-ready-in-insertion-
order choice is used.  On a cyclic graph the output is partial, which
the is-DAG assertion below detects by a length test, matching the
exception nx raises. -/
def topoSort (gnodes : List String) (edges : List (String × String)) :
    List String :=
  topoSortAux gnodes edges gnodes.length []

/-- A built causal model: the per-node objects and corruption function
tags in construction order, the edges, the stream position after
construction, the seed, and the originating config. -/
structure Model where
  node_objects : List (String × NodeObj)
  corr_funcs : List (String × String)
  edge_list : List (String × String)
  pos : ℕ
  seed : ℕ
  configuration : Config
  loadable : Bool
  deriving Repr, DecidableEq

/-- DAG.__init__ followed by ModelBase.__init__: validate the config,
select nodes and edges verbatim (CustomDAG), require a nonempty edge
list, run the construction scan with a fresh stream position, and assert
acyclicity of the resulting graph. -/
def dagBuild (σ : RStream) (cfg : Config) (seed : ℕ) (load : Bool) :
    Except String Model := do
  match cfg.dag_generation_method with
  | Option.none => .error "Error! Config file must contain dag_generation_method"
  | some method =>
    if method = "CustomDAG" then do
      customDAG_ensure_valid_config cfg
      let specs := cfg.node_list.getD []
      let edges := cfg.edge_list.getD []
      if edges.isEmpty then .error "Error! No edges in the graph"
      else do
        let st ← buildLoop σ cfg load specs edges (specs.length + 1) ⟨[], [], 0⟩
        let names := st.added_nodes.map Prod.fst
        let gnodes := graphNodes names edges
        if (topoSort gnodes edges).length = gnodes.length then
          .ok ⟨st.node_objects, st.added_nodes, edges, st.pos, seed, cfg, load⟩
        else .error "AssertionError: graph is not a DAG"
    else .error "AttributeError: unknown dag_generation_method"

/-- ASCII lowercase of a character, as Python str.lower acts on the
ASCII node names in scope. -/
def lowerChar (c : Char) : Char :=
  if 'A' ≤ c ∧ c ≤ 'Z' then Char.ofNat (c.toNat + 32) else c

/-- Python str.lower restricted to ASCII strings (all node names the
engine compares are ASCII). -/
def strLower (s : String) : String := String.mk (s.data.map lowerChar)

/-- The per-node body of ModelBase.sample: nodes whose lowercased name
is root are skipped; each other node gets its causal function invoked on
all previously accumulated results, and an intervention entry for the
node is merged into its stored entry before any child reads it. -/
def sampleLoop (fns : SpecialFns) (σ : RStream)
    (intervene : List (String × List (String × PyVal)))
    (objs : List (String × NodeObj)) :
    List String → SampleMap → ℕ → Except String (SampleMap × ℕ)
  | [], acc, pos => .ok (acc, pos)
  | n :: rest, acc, pos =>
    if strLower n = "root" then sampleLoop fns σ intervene objs rest acc pos
    else
      match dictGet objs n with
      | Option.none => .error "KeyError: node has no sampling function"
      | some obj => do
        let (entry, pos2) ← causal_func fns σ obj acc pos
        let entry :=
          match dictGet intervene n with
          | Option.none => entry
          | some upd => upd.foldl (fun e kv => dictSet e kv.1 kv.2) entry
        sampleLoop fns σ intervene objs rest (dictSet acc n entry) pos2

/-- ModelBase.sample: walk the topological order of the built graph. -/
def Model.sample (fns : SpecialFns) (σ : RStream) (m : Model)
    (intervene : List (String × List (String × PyVal))) :
    Except String (SampleMap × ℕ) :=
  let gnodes := graphNodes (m.node_objects.map Prod.fst) m.edge_list
  let order := topoSort gnodes m.edge_list
  sampleLoop fns σ intervene m.node_objects order [] m.pos

/-- DAG.save composed with DAG.to_yaml: the declarative persisted form
(the original_configuration echo is omitted here; it is never read
back). -/
def Model.save (m : Model) : Config :=
  { dag_generation_method := some "CustomDAG",
    node_list := some (m.node_objects.map (fun p =>
      nodeToYaml ((dictGet m.corr_funcs p.1).getD "") p.2)),
    edge_list := some m.edge_list,
    loadable := some true,
    seed := some m.seed }

/-- DAG.load: require the loadable marker, the CustomDAG method and a
seed, then build with load set and the recorded seed.  seedStream maps a
seed to the stream of the generator it seeds. -/
def dagLoad (seedStream : ℕ → RStream) (cfg : Config) : Except String Model :=
  match cfg.loadable with
  | some true =>
    if cfg.dag_generation_method = some "CustomDAG" then
      match cfg.seed with
      | some sd => dagBuild (seedStream sd) cfg sd true
      | Option.none => .error "Error! Seed must be in the config file"
    else .error "Error! To load a DAG it must be a CustomDag"
  | _ => .error "Error! Config file must be loadable"

/-- Success test on a build result. -/
def exceptOk {α : Type} : Except String α → Bool
  | .ok _ => true
  | .error _ => false

/-- Decidable equality of build and sample results. -/
instance {ε α : Type} [DecidableEq ε] [DecidableEq α] : DecidableEq (Except ε α) :=
  fun a b =>
  match a, b with
  | .ok x, .ok y =>
    match decEq x y with
    | isTrue h => isTrue (congrArg Except.ok h)
    | isFalse h => isFalse (fun hc => h (Except.ok.inj hc))
  | .error x, .error y =>
    match decEq x y with
    | isTrue h => isTrue (congrArg Except.error h)
    | isFalse h => isFalse (fun hc => h (Except.error.inj hc))
  | .ok _, .error _ => isFalse (fun hc => Except.noConfusion hc)
  | .error _, .ok _ => isFalse (fun hc => Except.noConfusion hc)

/-- A spec contains no interventions when no node carries an intervene
field. -/
def noInterventions (cfg : Config) : Prop :=
  ∀ spec ∈ cfg.node_list.getD [], spec.intervene = Option.none

instance (cfg : Config) : Decidable (noInterventions cfg) :=
  List.decidableBAll _ _

/-- C2: the engine is a pure function of spec, seed (stream) and load
flag, so two builds of the same spec with the same seed yield the same
model and their first samples agree key for key, in order, with equal
values. -/
theorem C2_deterministic_build_sample (fns : SpecialFns) (σ : RStream) (cfg : Config)
    (seed : ℕ) (m1 m2 : Model)
    (hni : noInterventions cfg)
    (h1 : dagBuild σ cfg seed false = .ok m1)
    (h2 : dagBuild σ cfg seed false = .ok m2) :
    m1 = m2 ∧ Model.sample fns σ m1 [] = Model.sample fns σ m2 [] := by
  rw [h1] at h2
  have h := Except.ok.inj h2
  subst h
  exact ⟨rfl, rfl⟩

/-- A minimal valid WeightedSumNode spec used by concrete scenarios. -/
def baseWS : NodeSpec :=
  { name := some "A"
    type := some "WeightedSumNode"
    corruption_func := some "blur"
    parameter := some "size"
    defaults := Option.none
    min_val := some 0
    max_val := some 1
    extreme := some 1
    standard := some 0
    beta_a := some 1
    beta_b := some 1
    std := some 1
    corruption_type := some "increasing"
    activation_type := some "tanh"
    bias := some (.num 0)
    render_value := Option.none
    severity_value := Option.none
    intervene := Option.none
    edge_weights := Option.none }

/-- Single-node config: root to A. -/
def cfg0 : Config :=
  { dag_generation_method := some "CustomDAG"
    node_list := some [baseWS]
    edge_list := some [("root", "A")]
    loadable := Option.none
    seed := Option.none }

/-- Witness for C2: a concrete spec that builds, with the determinism
conclusion instantiated. -/
theorem C2_deterministic_build_sample_witness :
    noInterventions cfg0 ∧
    ∃ m1 m2, dagBuild sigmaNat cfg0 1 false = .ok m1 ∧
      dagBuild sigmaNat cfg0 1 false = .ok m2 ∧
      m1 = m2 ∧ Model.sample fnsId sigmaNat m1 [] = Model.sample fnsId sigmaNat m2 [] := by
  have hni : noInterventions cfg0 := by decide
  refine ⟨hni, ?_⟩
  cases h : dagBuild sigmaNat cfg0 1 false with
  | error e =>
    have : exceptOk (dagBuild sigmaNat cfg0 1 false) = true := by decide
    rw [h] at this
    simp [exceptOk] at this
  | ok m =>
    obtain ⟨he, hs⟩ := C2_deterministic_build_sample fnsId sigmaNat cfg0 1 m m hni h h
    exact ⟨m, m, rfl, rfl, he, hs⟩

def NodeObj.isConst : NodeObj → Bool
  | .const _ _ _ _ _ _ => true
  | .ws _ _ _ _ _ _ _ _ _ _ _ _ _ _ _ => false

/-- Spec of A with an intervention requesting severity 3/4. -/
def cfgC4 : Config :=
  { cfg0 with node_list := some [{ baseWS with
      intervene := some ⟨some (mkRat 3 4), Option.none⟩ }] }

/-- Evaluation lemmas for the ASCII lowercase of the concrete node
names used in scenarios. -/
theorem strLower_A : strLower "A" = "a" := by decide

theorem strLower_B : strLower "B" = "b" := by decide

theorem strLower_Root : strLower "Root" = "root" := by decide

theorem strLower_root : strLower "root" = "root" := by decide

/-- The model the build of cfgC4 produces: the node is still a
WeightedSumNode, no ConstantNode substitution happened. -/
def mC4 : Model :=
  { node_objects := [("A", .ws "A" [] "size" [] 0 1 1 0 1 1 "increasing" 0 1 "tanh" [])]
    corr_funcs := [("A", "blur")]
    edge_list := [("root", "A")]
    pos := 0
    seed := 1
    configuration := cfgC4
    loadable := false }

/-- C4 (code behaviour at the failing input): a spec whose node carries
an intervene field with severity 3/4 builds successfully, yet the node
stays a WeightedSumNode (no ConstantNode substitution happens, because
filter_dict drops the intervene key before the substitution guard tests
it), the first sampled severity is 1/2 rather than the requested 3/4,
and a second call samples the different severity 1, so the node is
still stochastic rather than a stored constant pair. -/
theorem C4_intervention_request_ignored :
    dagBuild sigmaNat cfgC4 1 false = .ok mC4 ∧
    mC4.node_objects.map (fun p => p.2.isConst) = [false] ∧
    Model.sample fnsId sigmaNat mC4 []
      = .ok ([("A", [("size", .num (1/2)), ("severity", .num (1/2)),
                     ("sampled", .str "size")])], 1) ∧
    Model.sample fnsId sigmaNat { mC4 with pos := 1 } []
      = .ok ([("A", [("size", .num 1), ("severity", .num 1),
                     ("sampled", .str "size")])], 2) ∧
    (1 : ℚ)/2 ≠ mkRat 3 4 ∧ (1 : ℚ) ≠ mkRat 3 4 := by
  refine ⟨by decide, by decide, ?_, ?_, by norm_num [mkRat], by norm_num [mkRat]⟩ <;>
    simp [Model.sample, sampleLoop, causal_func, sampling_function, ws_sampling_function,
      sumParentTerms, rngNormal, rawDraw, activation_fn, get_severity_from_render_value,
      dictSet, dictGet, mC4, fnsId, sigmaNat, graphNodes, ndInsert, inNeighbors, topoPick,
      topoSortAux, topoSort, NodeObj.parameter, NodeObj.defaults, Bind.bind, Except.bind,
      strLower_A, strLower_root]

/-- Two nodes named A. -/
def cfgDupName : Config := { cfg0 with node_list := some [baseWS, baseWS] }

/-- A node named root. -/
def cfgRootReserved : Config :=
  { cfg0 with node_list := some [{ baseWS with name := some "root" }] }

/-- An edge to an undefined node B. -/
def cfgUnknownEdge : Config :=
  { cfg0 with edge_list := some [("root", "A"), ("A", "B")] }

/-- A node B absent from every edge. -/
def cfgOrphan : Config :=
  { cfg0 with node_list := some [baseWS, { baseWS with name := some "B" }] }

/-- A 3-cycle below the root. -/
def cfgCycle : Config :=
  { cfg0 with
    node_list := some [baseWS, { baseWS with name := some "B" },
      { baseWS with name := some "C" }]
    edge_list := some [("root", "A"), ("A", "B"), ("B", "C"), ("C", "A")] }

/-- A direct ConstantNode with severity 3/2. -/
def cfgConstBadSev : Config :=
  { cfg0 with node_list := some [{ baseWS with
      type := some "ConstantNode"
      render_value := some 1
      severity_value := some (mkRat 3 2) }] }

def cfgBadCorr : Config :=
  { cfg0 with node_list := some [{ baseWS with corruption_type := some "sideways" }] }

def cfgBadBetaA : Config :=
  { cfg0 with node_list := some [{ baseWS with beta_a := some 0 }] }

def cfgBadBetaB : Config :=
  { cfg0 with node_list := some [{ baseWS with beta_b := some (-2) }] }

def cfgBadStd : Config :=
  { cfg0 with node_list := some [{ baseWS with std := some 0 }] }

def cfgBadMinMax : Config :=
  { cfg0 with node_list := some [{ baseWS with min_val := some 1, max_val := some 1 }] }

def cfgBadAct : Config :=
  { cfg0 with node_list := some [{ baseWS with activation_type := some "relu" }] }

/-- A WeightedSumNode carrying an intervention with severity 3/2. -/
def cfgIntervBadSev : Config :=
  { cfg0 with node_list := some [{ baseWS with
      intervene := some ⟨some (mkRat 3 2), Option.none⟩ }] }

/-- C8 (code behaviour): each listed construction-failure scenario does
raise, except the out-of-range severity on an intervention request,
which builds successfully because the intervention block that contains
the range assertion is unreachable (filter_dict drops the intervene key
before the guard). -/
theorem C8_failfast_validation :
    exceptOk (dagBuild sigmaNat cfgDupName 1 false) = false ∧
    exceptOk (dagBuild sigmaNat cfgRootReserved 1 false) = false ∧
    exceptOk (dagBuild sigmaNat cfgUnknownEdge 1 false) = false ∧
    exceptOk (dagBuild sigmaNat cfgOrphan 1 false) = false ∧
    exceptOk (dagBuild sigmaNat cfgCycle 1 false) = false ∧
    exceptOk (dagBuild sigmaNat cfgConstBadSev 1 false) = false ∧
    exceptOk (dagBuild sigmaNat cfgBadCorr 1 false) = false ∧
    exceptOk (dagBuild sigmaNat cfgBadBetaA 1 false) = false ∧
    exceptOk (dagBuild sigmaNat cfgBadBetaB 1 false) = false ∧
    exceptOk (dagBuild sigmaNat cfgBadStd 1 false) = false ∧
    exceptOk (dagBuild sigmaNat cfgBadMinMax 1 false) = false ∧
    exceptOk (dagBuild sigmaNat cfgBadAct 1 false) = false ∧
    exceptOk (dagBuild sigmaNat cfgIntervBadSev 1 false) = true := by
  decide

/-- A single node whose name is Root (validation only rejects the exact
lowercase name root). -/
def cfgC9 : Config :=
  { cfg0 with
    node_list := some [{ baseWS with name := some "Root" }]
    edge_list := some [("root", "Root")] }

/-- The model built from cfgC9. -/
def mC9 : Model :=
  { node_objects := [("Root", .ws "Root" [] "size" [] 0 1 1 0 1 1 "increasing" 0 1 "tanh" [])]
    corr_funcs := [("Root", "blur")]
    edge_list := [("root", "Root")]
    pos := 0
    seed := 1
    configuration := cfgC9
    loadable := false }

/-- C9 counterexample: a spec with the single node Root builds
successfully, but sample returns an empty mapping (the skip test
lowercases the name, while validation only rejects the exact string
root), so the key set is not the node-name set minus root. -/
theorem C9_counterexample_cased_root_node :
    dagBuild sigmaNat cfgC9 1 false = .ok mC9 ∧
    specNames (cfgC9.node_list.getD []) = ["Root"] ∧
    Model.sample fnsId sigmaNat mC9 [] = .ok ([], 0) ∧
    (([] : SampleMap).map Prod.fst ≠ ["Root"]) := by
  refine ⟨by decide, by decide, ?_, by simp⟩
  simp [Model.sample, sampleLoop, mC9, graphNodes, ndInsert, inNeighbors, topoPick,
    topoSortAux, topoSort, strLower_Root, strLower_root]

/-- Chain root to A to B. -/
def cfgC10 : Config :=
  { cfg0 with
    node_list := some [baseWS, { baseWS with name := some "B" }]
    edge_list := some [("root", "A"), ("A", "B")] }

/-- The model built from cfgC10: B holds the sampled edge weight -1 for
its parent A. -/
def mC10 : Model :=
  { node_objects :=
      [("A", .ws "A" [] "size" [] 0 1 1 0 1 1 "increasing" 0 1 "tanh" []),
       ("B", .ws "B" ["A"] "size" [] 0 1 1 0 1 1 "increasing" 0 1 "tanh" [("A", -1)])]
    corr_funcs := [("A", "blur"), ("B", "blur")]
    edge_list := [("root", "A"), ("A", "B")]
    pos := 1
    seed := 1
    configuration := cfgC10
    loadable := false }

/-- Sample of cfgC10 without interventions. -/
def psC10plain : SampleMap :=
  [("A", [("size", .num 1), ("severity", .num 1), ("sampled", .str "size")]),
   ("B", [("size", .num 1), ("severity", .num 1), ("sampled", .str "size")])]

/-- Sample of cfgC10 with the severity of A forced to 1/2: the entry of
B changes although B is not named in the intervention. -/
def psC10int : SampleMap :=
  [("A", [("size", .num 1), ("severity", .num (1/2)), ("sampled", .str "size")]),
   ("B", [("size", .num (5/4)), ("severity", .num (5/4)), ("sampled", .str "size")])]

/-- C10 counterexample: on the chain root to A to B, intervening on the
severity of A changes the entry of B, because B reads the updated
severity of A while the noise draws stay aligned; so entries of nodes
not named in the intervention mapping are not all identical. -/
theorem C10_counterexample_child_of_intervened :
    dagBuild sigmaNat cfgC10 1 false = .ok mC10 ∧
    Model.sample fnsId sigmaNat mC10 [] = .ok (psC10plain, 3) ∧
    Model.sample fnsId sigmaNat mC10 [("A", [("severity", .num (1/2))])]
      = .ok (psC10int, 3) ∧
    dictGet psC10plain "B" ≠ dictGet psC10int "B" := by
  refine ⟨?_, ?_, ?_, ?_⟩
  · simp [dagBuild, customDAG_ensure_valid_config, dagGenerator_ensure_valid_config,
      ensure_unique_names, specNames, buildLoop, scanPass, buildNodeStep, get_parents,
      get_node_parameters, specToParams, ws_ensure_valid_node, ensureFields,
      Params.hasField, node_necessary_fields, ws_necessary_fields, filter_dict,
      mkWeightedSumNode, computeBias, sampleEdgeWeights, interveneBlock, graphNodes,
      ndInsert, inNeighbors, topoPick, topoSortAux, topoSort, cfgC10, cfg0, baseWS, mC10,
      sigmaNat, rngUniform, rawDraw, dictSet, dictGet, BuildState.builtNames, Bind.bind,
      Except.bind]
    try norm_num
  · simp [Model.sample, sampleLoop, causal_func, sampling_function, ws_sampling_function,
      sumParentTerms, rngNormal, rawDraw, activation_fn, get_severity_from_render_value,
      dictSet, dictGet, mC10, psC10plain, fnsId, sigmaNat, graphNodes, ndInsert,
      inNeighbors, topoPick, topoSortAux, topoSort, NodeObj.parameter, NodeObj.defaults,
      pyToNum, Bind.bind, Except.bind, strLower_A, strLower_B, strLower_root]
    try norm_num
  · simp [Model.sample, sampleLoop, causal_func, sampling_function, ws_sampling_function,
      sumParentTerms, rngNormal, rawDraw, activation_fn, get_severity_from_render_value,
      dictSet, dictGet, mC10, psC10int, fnsId, sigmaNat, graphNodes, ndInsert,
      inNeighbors, topoPick, topoSortAux, topoSort, NodeObj.parameter, NodeObj.defaults,
      pyToNum, Bind.bind, Except.bind, strLower_A, strLower_B, strLower_root]
    try norm_num
  · simp [psC10plain, psC10int, dictGet]
    try norm_num

/-- Node A with a bias that requests randomness. -/
def cfgC3 : Config :=
  { cfg0 with node_list := some [{ baseWS with bias := some (.str "random") }] }

/-- The model built from cfgC3: the bias consumed one construction draw
(value 0 under sigmaNat), so the stream position after building is 1. -/
def mC3 : Model :=
  { node_objects := [("A", .ws "A" [] "size" [] 0 1 1 0 1 1 "increasing" 0 1 "tanh" [])]
    corr_funcs := [("A", "blur")]
    edge_list := [("root", "A")]
    pos := 1
    seed := 1
    configuration := cfgC3
    loadable := false }

/-- The persisted form of mC3: the frozen bias is the numeric 0. -/
def cfgC3saved : Config :=
  { dag_generation_method := some "CustomDAG"
    node_list := some [{ baseWS with
      bias := some (.num 0)
      edge_weights := some [] }]
    edge_list := some [("root", "A")]
    loadable := some true
    seed := some 1 }

/-- The model rebuilt from cfgC3saved: the persisted numeric bias
consumes no draw, so its stream position after building is 0, not 1. -/
def mC3loaded : Model :=
  { node_objects := [("A", .ws "A" [] "size" [] 0 1 1 0 1 1 "increasing" 0 1 "tanh" [])]
    corr_funcs := [("A", "blur")]
    edge_list := [("root", "A")]
    pos := 0
    seed := 1
    configuration := cfgC3saved
    loadable := true }

/-- C3 counterexample: with bias random, the original build consumes a
construction draw that the reloaded build does not, so the two models
leave the stream at different positions and their first samples differ
(severity 1 against severity 1/2 under the concrete stream). -/
theorem C3_counterexample_random_bias :
    dagBuild sigmaNat cfgC3 1 false = .ok mC3 ∧
    Model.save mC3 = cfgC3saved ∧
    dagLoad (fun _ => sigmaNat) cfgC3saved = .ok mC3loaded ∧
    Model.sample fnsId sigmaNat mC3 []
      = .ok ([("A", [("size", .num 1), ("severity", .num 1),
                     ("sampled", .str "size")])], 2) ∧
    Model.sample fnsId sigmaNat mC3loaded []
      = .ok ([("A", [("size", .num (1/2)), ("severity", .num (1/2)),
                     ("sampled", .str "size")])], 1) ∧
    ((Except.ok ([("A", [("size", .num 1), ("severity", .num 1),
        ("sampled", .str "size")])], 2) : Except String (SampleMap × ℕ))
      ≠ Except.ok ([("A", [("size", .num (1/2)), ("severity", .num (1/2)),
          ("sampled", .str "size")])], 1)) := by
  refine ⟨?_, by decide, by decide, ?_, ?_, ?_⟩
  · simp [dagBuild, customDAG_ensure_valid_config, dagGenerator_ensure_valid_config,
      ensure_unique_names, specNames, buildLoop, scanPass, buildNodeStep, get_parents,
      get_node_parameters, specToParams, ws_ensure_valid_node, ensureFields,
      Params.hasField, node_necessary_fields, ws_necessary_fields, filter_dict,
      mkWeightedSumNode, computeBias, sampleEdgeWeights, interveneBlock, graphNodes,
      ndInsert, inNeighbors, topoPick, topoSortAux, topoSort, cfgC3, cfg0, baseWS, mC3,
      sigmaNat, rngNormal, rawDraw, BuildState.builtNames, Bind.bind, Except.bind]
    try norm_num
  · simp [Model.sample, sampleLoop, causal_func, sampling_function, ws_sampling_function,
      sumParentTerms, rngNormal, rawDraw, activation_fn, get_severity_from_render_value,
      dictSet, dictGet, mC3, fnsId, sigmaNat, graphNodes, ndInsert, inNeighbors, topoPick,
      topoSortAux, topoSort, NodeObj.parameter, NodeObj.defaults, Bind.bind, Except.bind,
      strLower_A, strLower_root]
    try norm_num
  · simp [Model.sample, sampleLoop, causal_func, sampling_function, ws_sampling_function,
      sumParentTerms, rngNormal, rawDraw, activation_fn, get_severity_from_render_value,
      dictSet, dictGet, mC3loaded, fnsId, sigmaNat, graphNodes, ndInsert, inNeighbors,
      topoPick, topoSortAux, topoSort, NodeObj.parameter, NodeObj.defaults, Bind.bind,
      Except.bind, strLower_A, strLower_root]
    try norm_num
  · simp

/-- Ordered-dict assignment stores the value at the key. -/
theorem dictGet_dictSet_self {α : Type} (l : List (String × α)) (k : String) (v : α) :
    dictGet (dictSet l k v) k = some v := by
  induction l with
  | nil => simp [dictSet, dictGet]
  | cons hd tl ih =>
    by_cases h : hd.1 = k
    · simp [dictSet, dictGet, h]
    · simp only [dictSet, h, if_false]
      simpa [dictGet, List.find?, h] using ih

/-- Ordered-dict assignment leaves other keys unchanged. -/
theorem dictGet_dictSet_ne {α : Type} (l : List (String × α)) (k k' : String) (v : α)
    (h : k' ≠ k) : dictGet (dictSet l k v) k' = dictGet l k' := by
  have hne : k ≠ k' := fun hc => h hc.symm
  induction l with
  | nil => simp [dictSet, dictGet, List.find?, hne]
  | cons hd tl ih =>
    by_cases hh : hd.1 = k
    · subst hh
      simp [dictSet, dictGet, List.find?, hne]
    · simp only [dictSet, hh, if_false]
      by_cases hk : hd.1 = k'
      · simp [dictGet, List.find?, hk]
      · simpa [dictGet, List.find?, hk] using ih

/-- The weighted-sum loop depends on the accumulated sample map only
through the entries of the parents it reads. -/
theorem sumParentTerms_congr (edge_weights : List (String × ℚ)) (ps1 ps2 : SampleMap) :
    ∀ (l : List String), (∀ p ∈ l, dictGet ps1 p = dictGet ps2 p) →
      ∀ acc, sumParentTerms edge_weights ps1 l acc = sumParentTerms edge_weights ps2 l acc := by
  intro l
  induction l with
  | nil => intro _ acc; rfl
  | cons p rest ih =>
    intro h acc
    have hp := h p (by simp)
    have ihr := ih (fun q hq => h q (by simp [hq]))
    simp only [sumParentTerms, ← hp]
    cases hw : dictGet edge_weights p with
    | none => simp [hw]
    | some w =>
      cases he : dictGet ps1 p with
      | none => simp [he]
      | some entry =>
        cases hsev : dictGet entry "severity" with
        | none => simp [he, hsev]
        | some pv =>
          cases hn : pyToNum pv with
          | error e => simp [he, hsev, hn]
          | ok s => simp [he, hsev, hn, ihr]

/-- The causal function depends on the accumulated sample map only
through the entries of the node parents. -/
theorem causal_func_congr (fns : SpecialFns) (σ : RStream) (obj : NodeObj)
    (acc1 acc2 : SampleMap) (pos : ℕ)
    (h : ∀ p ∈ obj.parentNames, dictGet acc1 p = dictGet acc2 p) :
    causal_func fns σ obj acc1 pos = causal_func fns σ obj acc2 pos := by
  cases obj with
  | const nm prs prm dfl rv sv => rfl
  | ws nm prs prm dfl mn mx ex st ba bb ct b sd act ew =>
    have hsum := sumParentTerms_congr ew acc1 acc2 prs
      (by simpa [NodeObj.parentNames] using h) 0
    simp only [causal_func, sampling_function, ws_sampling_function, bind, Except.bind,
      hsum]

/-- Number of stream draws one sampling call of a node consumes. -/
def NodeObj.drawCount : NodeObj → ℕ
  | .ws _ _ _ _ _ _ _ _ _ _ _ _ _ _ _ => 1
  | .const _ _ _ _ _ _ => 0

/-- A successful causal-function call advances the stream position by
the draw count of the node, whatever the accumulated entries are. -/
theorem causal_func_pos (fns : SpecialFns) (σ : RStream) (obj : NodeObj)
    (acc : SampleMap) (pos : ℕ) (e : Entry) (q : ℕ)
    (h : causal_func fns σ obj acc pos = .ok (e, q)) : q = pos + obj.drawCount := by
  cases obj with
  | const nm prs prm dfl rv sv =>
    simp only [causal_func, sampling_function, bind, Except.bind, Except.ok.injEq,
      Prod.mk.injEq, NodeObj.drawCount] at h ⊢
    omega
  | ws nm prs prm dfl mn mx ex st ba bb ct b sd act ew =>
    simp only [causal_func, sampling_function, ws_sampling_function, bind, Except.bind,
      rngNormal, rawDraw, NodeObj.drawCount] at h ⊢
    cases hs : sumParentTerms ew acc prs 0 with
    | error err => simp [hs] at h
    | ok t0 =>
      simp only [hs] at h
      cases hq : activation_fn fns act (t0 + (b + sd * σ pos)) with
      | none => simp [hq] at h
      | some quantile =>
        simp only [hq] at h
        cases hv : get_severity_from_render_value ct mn mx st
            (mn + fns.betaincinv ba bb quantile * (mx - mn)) with
        | none => simp [hv] at h
        | some sev =>
          simp only [hv, Except.ok.injEq, Prod.mk.injEq] at h
          omega

/-- A node is unaffected by an intervention mapping when it is not named
in the mapping and all of its parents are unaffected. -/
inductive Unaffected (objs : List (String × NodeObj))
    (intervene : List (String × List (String × PyVal))) : String → Prop where
  | mk (n : String) (obj : NodeObj) :
      dictGet objs n = some obj →
      dictGet intervene n = Option.none →
      (∀ p ∈ obj.parentNames, Unaffected objs intervene p) →
      Unaffected objs intervene n

/-- Walking the same order with and without an intervention mapping
advances the stream identically (every node consumes its own draw count
regardless of entry values), and produces identical entries for every
unaffected node. -/
theorem sampleLoop_intervention_agree (fns : SpecialFns) (σ : RStream)
    (objs : List (String × NodeObj))
    (intervene : List (String × List (String × PyVal))) :
    ∀ (order : List String) (acc1 acc2 : SampleMap) (pos : ℕ) (r1 r2 : SampleMap × ℕ),
      sampleLoop fns σ [] objs order acc1 pos = .ok r1 →
      sampleLoop fns σ intervene objs order acc2 pos = .ok r2 →
      (∀ n, Unaffected objs intervene n → dictGet acc1 n = dictGet acc2 n) →
      r1.2 = r2.2 ∧
        ∀ n, Unaffected objs intervene n → dictGet r1.1 n = dictGet r2.1 n := by
  intro order
  induction order with
  | nil =>
    intro acc1 acc2 pos r1 r2 h1 h2 hacc
    simp only [sampleLoop, Except.ok.injEq] at h1 h2
    subst h1
    subst h2
    exact ⟨rfl, hacc⟩
  | cons n rest ih =>
    intro acc1 acc2 pos r1 r2 h1 h2 hacc
    by_cases hroot : strLower n = "root"
    · simp only [sampleLoop, if_pos hroot] at h1 h2
      exact ih acc1 acc2 pos r1 r2 h1 h2 hacc
    · simp only [sampleLoop, if_neg hroot] at h1 h2
      cases hobj : dictGet objs n with
      | none => simp [hobj] at h1
      | some obj =>
        simp only [hobj] at h1 h2
        cases hc1 : causal_func fns σ obj acc1 pos with
        | error e => simp [hc1, bind, Except.bind] at h1
        | ok v1 =>
          cases hc2 : causal_func fns σ obj acc2 pos with
          | error e => simp [hc2, bind, Except.bind] at h2
          | ok v2 =>
            obtain ⟨e1, q1⟩ := v1
            obtain ⟨e2, q2⟩ := v2
            have hq1 := causal_func_pos fns σ obj acc1 pos e1 q1 hc1
            have hq2 := causal_func_pos fns σ obj acc2 pos e2 q2 hc2
            have hq : q2 = q1 := by rw [hq1, hq2]
            subst hq
            simp only [hc1, bind, Except.bind, dictGet, List.find?, Option.map] at h1
            simp only [hc2, bind, Except.bind] at h2
            refine ih _ _ _ _ _ h1 h2 ?_
            intro n' hna
            by_cases hn' : n' = n
            · subst hn'
              obtain ⟨_, obj0, hobj0, hint0, hpar⟩ := hna
              have hoo : obj0 = obj := by
                rw [hobj] at hobj0
                exact (Option.some.inj hobj0).symm
              subst hoo
              have hcc := causal_func_congr fns σ obj0 acc1 acc2 pos
                (fun p hp => hacc p (hpar p hp))
              rw [hc1, hc2] at hcc
              have he : e1 = e2 := by
                have := Except.ok.inj hcc
                exact (Prod.mk.injEq _ _ _ _ ▸ this).1
              rw [dictGet_dictSet_self, dictGet_dictSet_self, hint0, he]
            · rw [dictGet_dictSet_ne _ _ _ _ hn', dictGet_dictSet_ne _ _ _ _ hn']
              exact hacc n' hna

/-- C10 amended: passing an intervention mapping to sample leaves the
stream advance identical to the plain call (each causal function is
still invoked and consumes its draws), and the entry of every node that
is neither named in the mapping nor downstream of a named node is
identical between the two calls; entries of descendants of intervened
nodes may differ, since children read the updated parent severities. -/
theorem C10_amended_intervention_isolation (fns : SpecialFns) (σ : RStream) (m : Model)
    (intervene : List (String × List (String × PyVal)))
    (ps1 ps2 : SampleMap) (pos1 pos2 : ℕ)
    (h1 : Model.sample fns σ m [] = .ok (ps1, pos1))
    (h2 : Model.sample fns σ m intervene = .ok (ps2, pos2)) :
    pos1 = pos2 ∧
      ∀ n, Unaffected m.node_objects intervene n → dictGet ps1 n = dictGet ps2 n := by
  simp only [Model.sample] at h1 h2
  have h := sampleLoop_intervention_agree fns σ m.node_objects intervene
    (topoSort (graphNodes (m.node_objects.map Prod.fst) m.edge_list) m.edge_list)
    [] [] m.pos (ps1, pos1) (ps2, pos2) h1 h2 (fun n _ => rfl)
  exact ⟨h.1, h.2⟩

/-- Witness for the amended C10: on the chain root to A to B,
intervening on B leaves the entry of A and the final stream position
unchanged. -/
theorem C10_amended_intervention_isolation_witness :
    ∃ r1 r2 : SampleMap × ℕ,
      Model.sample fnsId sigmaNat mC10 [] = .ok r1 ∧
      Model.sample fnsId sigmaNat mC10 [("B", [("severity", PyVal.num 0)])] = .ok r2 ∧
      r1.2 = r2.2 ∧ dictGet r1.1 "A" = dictGet r2.1 "A" := by
  have h1 : Model.sample fnsId sigmaNat mC10 [] = .ok (psC10plain, 3) := by
    simp [Model.sample, sampleLoop, causal_func, sampling_function, ws_sampling_function,
      sumParentTerms, rngNormal, rawDraw, activation_fn, get_severity_from_render_value,
      dictSet, dictGet, mC10, psC10plain, fnsId, sigmaNat, graphNodes, ndInsert,
      inNeighbors, topoPick, topoSortAux, topoSort, NodeObj.parameter, NodeObj.defaults,
      pyToNum, Bind.bind, Except.bind, strLower_A, strLower_B, strLower_root]
    try norm_num
  have h2 : Model.sample fnsId sigmaNat mC10 [("B", [("severity", PyVal.num 0)])]
      = .ok ([("A", [("size", .num 1), ("severity", .num 1), ("sampled", .str "size")]),
              ("B", [("size", .num 1), ("severity", .num 0),
                     ("sampled", .str "size")])], 3) := by
    simp [Model.sample, sampleLoop, causal_func, sampling_function, ws_sampling_function,
      sumParentTerms, rngNormal, rawDraw, activation_fn, get_severity_from_render_value,
      dictSet, dictGet, mC10, fnsId, sigmaNat, graphNodes, ndInsert,
      inNeighbors, topoPick, topoSortAux, topoSort, NodeObj.parameter, NodeObj.defaults,
      pyToNum, Bind.bind, Except.bind, strLower_A, strLower_B, strLower_root]
    try norm_num
  have hA : Unaffected mC10.node_objects [("B", [("severity", PyVal.num 0)])] "A" := by
    refine Unaffected.mk "A"
      (.ws "A" [] "size" [] 0 1 1 0 1 1 "increasing" 0 1 "tanh" []) (by decide) (by decide)
      ?_
    intro p hp
    simp [NodeObj.parentNames] at hp
  have h := C10_amended_intervention_isolation fnsId sigmaNat mC10
    [("B", [("severity", PyVal.num 0)])] psC10plain _ 3 3 h1 h2
  exact ⟨_, _, h1, h2, h.1, h.2 "A" hA⟩

/-- get_parents computes the distinct in-neighbors and fails exactly on
an empty result. -/
theorem get_parents_eq (n : String) (edges : List (String × String)) :
    get_parents n edges =
      if (inNeighbors edges n).isEmpty then .error "Error! Node has no parents"
      else .ok (inNeighbors edges n) := rfl

/-- Filtering to the WeightedSumNode fields drops the intervene key. -/
theorem filter_ws_intervene (p : Params) :
    (filter_dict ws_necessary_fields p).intervene = Option.none := by
  simp [filter_dict, ws_necessary_fields]

/-- Filtering to the ConstantNode fields drops the intervene key. -/
theorem filter_const_intervene (p : Params) :
    (filter_dict const_necessary_fields p).intervene = Option.none := by
  simp [filter_dict, const_necessary_fields]

/-- Node loading overwrites only kind-specific internal state: identity,
parents, parameter and defaults survive. -/
theorem nodeLoad_shape (node node' : NodeObj) (raw : NodeSpec)
    (h : nodeLoad node raw = .ok node') :
    node'.name = node.name ∧ node'.parentNames = node.parentNames ∧
    node'.parameter = node.parameter ∧ node'.defaults = node.defaults := by
  cases node with
  | ws nm prs prm dfl mn mx ex st ba bb ct b sd act ew =>
    simp only [nodeLoad] at h
    split at h
    · split at h
      · have he := Except.ok.inj h
        rw [← he]
        simp [NodeObj.name, NodeObj.parentNames, NodeObj.parameter, NodeObj.defaults]
      · simp at h
    · simp at h
  | const nm prs prm dfl rv sv =>
    simp only [nodeLoad] at h
    split at h
    · have he := Except.ok.inj h
      rw [← he]
      simp [NodeObj.name, NodeObj.parentNames, NodeObj.parameter, NodeObj.defaults]
    · simp at h

/-- A successfully constructed WeightedSumNode takes its parents from
the kwargs dict. -/
theorem mkWeightedSumNode_parents (σ : RStream) (p : Params) (pos : ℕ)
    (obj : NodeObj) (pos' : ℕ) (h : mkWeightedSumNode σ p pos = .ok (obj, pos')) :
    ∃ prs, p.parents = some prs ∧ obj.parentNames = prs := by
  simp only [mkWeightedSumNode] at h
  split at h
  · next nm prs prm dfl mn mx ex st ba bb ct bv sd act u hnm hprs hprm hdfl hmn hmx
        hex hst hba hbb hct hbv hsd hact hu =>
    split at h
    · have he := (Except.ok.inj h)
      have hobj := (Prod.mk.injEq _ _ _ _ ▸ he).1
      exact ⟨prs, hprs, by rw [← hobj]; rfl⟩
    · simp at h
  · simp at h

/-- A successfully constructed ConstantNode takes its parents from the
kwargs dict. -/
theorem mkConstantNode_parents (p : Params) (obj : NodeObj)
    (h : mkConstantNode p = .ok obj) :
    ∃ prs, p.parents = some prs ∧ obj.parentNames = prs := by
  simp only [mkConstantNode] at h
  split at h
  · next nm prs prm dfl rv sv hnm hprs hprm hdfl hrv hsv =>
    have he := Except.ok.inj h
    exact ⟨prs, hprs, by rw [← he]; rfl⟩
  · simp at h

/-- With no intervene key in the filtered kwargs the intervention block
is the identity, which is the only reachable case. -/
theorem interveneBlock_none (σ : RStream) (params2 : Params) (node : NodeObj)
    (pos : ℕ) (h : params2.intervene = Option.none) :
    interveneBlock σ params2 node pos = .ok (node, pos) := by
  simp [interveneBlock, h]

/-- Filtering the kwargs dict to the WeightedSumNode fields keeps the
parents entry. -/
theorem filter_ws_parents (spec : NodeSpec) (P : List String) :
    (filter_dict ws_necessary_fields (specToParams spec P)).parents = some P := rfl

/-- Filtering the kwargs dict to the ConstantNode fields keeps the
parents entry. -/
theorem filter_const_parents (spec : NodeSpec) (P : List String) :
    (filter_dict const_necessary_fields (specToParams spec P)).parents = some P := rfl

/-- One successful construction step appends exactly one node object
and one added-nodes entry, both under the child name, and the object
records the distinct non-root in-neighbors as its parents. -/
theorem buildNodeStep_shape (σ : RStream) (cfg : Config) (load : Bool)
    (edges : List (String × String)) (n : String) (st st' : BuildState)
    (h : buildNodeStep σ cfg load edges n st = .ok st') :
    ∃ obj cf, st'.node_objects = st.node_objects ++ [(n, obj)] ∧
      st'.added_nodes = st.added_nodes ++ [(n, cf)] ∧
      obj.parentNames = (inNeighbors edges n).filter (fun q => q ≠ "root") := by
  simp only [buildNodeStep, bind, Except.bind, decide_not] at h
  cases hgp : get_parents n edges with
  | error e => simp [hgp] at h
  | ok child_parents =>
    simp only [hgp] at h
    cases hsp : get_node_parameters cfg n with
    | error e => simp [hsp] at h
    | ok spec =>
      simp only [hsp] at h
      have hcp : child_parents = inNeighbors edges n := by
        rw [get_parents_eq] at hgp
        by_cases hemp : (inNeighbors edges n).isEmpty
        · simp [hemp] at hgp
        · simp [hemp] at hgp
          exact hgp.symm
      cases hty : spec.type with
      | none => rw [hty] at h; simp at h
      | some cls =>
        cases hcf : spec.corruption_func with
        | none => rw [hty, hcf] at h; simp at h
        | some corruption_func =>
          rw [hty, hcf] at h
          simp only [] at h
          by_cases hws : cls = "WeightedSumNode"
          · rw [if_pos hws] at h
            cases hv : ws_ensure_valid_node
                (specToParams spec (child_parents.filter (fun p => !decide (p = "root")))) with
            | error e => rw [hv] at h; simp at h
            | ok u =>
              simp only [hv] at h
              cases hmk : mkWeightedSumNode σ
                  (filter_dict ws_necessary_fields
                    (specToParams spec (child_parents.filter (fun p => !decide (p = "root")))))
                  st.pos with
              | error e => simp [hmk] at h
              | ok v =>
                obtain ⟨node, pos1⟩ := v
                simp only [hmk] at h
                obtain ⟨prs, hprs, hpn⟩ :=
                  mkWeightedSumNode_parents _ _ _ _ _ hmk
                have hprs2 : prs = child_parents.filter (fun p => !decide (p = "root")) :=
                  (Option.some.inj ((filter_ws_parents spec _).symm.trans hprs)).symm
                rw [interveneBlock_none σ _ _ _ (filter_ws_intervene _)] at h
                simp only [] at h
                cases hload : load with
                | false =>
                  rw [hload, if_neg Bool.false_ne_true] at h
                  have he := Except.ok.inj h
                  refine ⟨node, corruption_func, by rw [← he], by rw [← he], ?_⟩
                  rw [hpn, hprs2, hcp]
                  simp [decide_not]
                | true =>
                  rw [hload, if_pos rfl] at h
                  cases hfind : (cfg.node_list.getD []).find?
                      (fun s => s.name = some n) with
                  | none => simp [hfind] at h
                  | some raw =>
                    simp only [hfind] at h
                    cases hld : nodeLoad node raw with
                    | error e => simp [hld] at h
                    | ok node2 =>
                      simp only [hld] at h
                      have he := Except.ok.inj h
                      have hsh := nodeLoad_shape node node2 raw hld
                      refine ⟨node2, corruption_func, by rw [← he], by rw [← he], ?_⟩
                      rw [hsh.2.1, hpn, hprs2, hcp]
                      simp [decide_not]
          · rw [if_neg hws] at h
            by_cases hcn : cls = "ConstantNode"
            · rw [if_pos hcn] at h
              cases hv : const_ensure_valid_node
                  (specToParams spec (child_parents.filter (fun p => !decide (p = "root")))) with
              | error e => rw [hv] at h; simp at h
              | ok u =>
                simp only [hv] at h
                cases hmk : mkConstantNode
                    (filter_dict const_necessary_fields
                      (specToParams spec
                        (child_parents.filter (fun p => !decide (p = "root"))))) with
                | error e => simp [hmk] at h
                | ok node =>
                  simp only [hmk] at h
                  obtain ⟨prs, hprs, hpn⟩ := mkConstantNode_parents _ _ hmk
                  have hprs2 : prs = child_parents.filter (fun p => !decide (p = "root")) :=
                    (Option.some.inj ((filter_const_parents spec _).symm.trans hprs)).symm
                  rw [interveneBlock_none σ _ _ _ (filter_const_intervene _)] at h
                  simp only [] at h
                  cases hload : load with
                  | false =>
                    rw [hload, if_neg Bool.false_ne_true] at h
                    have he := Except.ok.inj h
                    refine ⟨node, corruption_func, by rw [← he], by rw [← he], ?_⟩
                    rw [hpn, hprs2, hcp]
                    simp [decide_not]
                  | true =>
                    rw [hload, if_pos rfl] at h
                    cases hfind : (cfg.node_list.getD []).find?
                        (fun s => s.name = some n) with
                    | none => simp [hfind] at h
                    | some raw =>
                      simp only [hfind] at h
                      cases hld : nodeLoad node raw with
                      | error e => simp [hld] at h
                      | ok node2 =>
                        simp only [hld] at h
                        have he := Except.ok.inj h
                        have hsh := nodeLoad_shape node node2 raw hld
                        refine ⟨node2, corruption_func, by rw [← he], by rw [← he], ?_⟩
                        rw [hsh.2.1, hpn, hprs2, hcp]
                        simp [decide_not]
            · rw [if_neg hcn] at h
              simp at h

/-- Invariant maintained by the construction scan: node_objects and
added_nodes list the same names in the same order, without duplicates,
all drawn from the spec list, and every stored object records its
distinct non-root in-neighbors as parents. -/
structure BuildInvariant (specs : List NodeSpec) (edges : List (String × String))
    (st : BuildState) : Prop where
  names_eq : st.node_objects.map Prod.fst = st.added_nodes.map Prod.fst
  nodup : (st.node_objects.map Prod.fst).Nodup
  mem_specs : ∀ n ∈ st.node_objects.map Prod.fst, n ∈ specNames specs
  parents : ∀ p ∈ st.node_objects,
    p.2.parentNames = (inNeighbors edges p.1).filter (fun q => q ≠ "root")

/-- Names of specs are in specNames. -/
theorem name_mem_specNames (specs : List NodeSpec) (s : NodeSpec) (nm : String)
    (hs : s ∈ specs) (hn : s.name = some nm) : nm ∈ specNames specs := by
  simp only [specNames, List.mem_filterMap]
  exact ⟨s, hs, hn⟩

/-- One scan pass preserves the invariant. -/
theorem scanPass_inv (σ : RStream) (cfg : Config) (load : Bool)
    (edges : List (String × String)) (specs0 : List NodeSpec) :
    ∀ (l : List NodeSpec) (st : BuildState) (added : Bool)
      (st' : BuildState) (added' : Bool),
      scanPass σ cfg load edges l st added = .ok (st', added') →
      (∀ s ∈ l, s ∈ specs0) →
      BuildInvariant specs0 edges st →
      BuildInvariant specs0 edges st' := by
  intro l
  induction l with
  | nil =>
    intro st added st' added' h _ hinv
    simp only [scanPass, Except.ok.injEq, Prod.mk.injEq] at h
    rw [← h.1]
    exact hinv
  | cons spec rest ih =>
    intro st added st' added' h hmem hinv
    simp only [scanPass] at h
    cases hn : spec.name with
    | none => rw [hn] at h; simp at h
    | some child_name =>
      rw [hn] at h
      simp only [bind, Except.bind] at h
      cases hgp : get_parents child_name edges with
      | error e => simp [hgp] at h
      | ok cps =>
        simp only [hgp] at h
        split at h
        · next hguard =>
          cases hst : buildNodeStep σ cfg load edges child_name st with
          | error e => simp [hst] at h
          | ok st2 =>
            simp only [hst] at h
            obtain ⟨obj, cf, ho, ha, hp⟩ := buildNodeStep_shape σ cfg load edges
              child_name st st2 hst
            refine ih st2 true st' added' h (fun s hs => hmem s (by simp [hs])) ?_
            refine ⟨?_, ?_, ?_, ?_⟩
            · rw [ho, ha, List.map_append, List.map_append, hinv.names_eq]
              simp
            · rw [ho, List.map_append]
              simp only [List.map_cons, List.map_nil]
              refine List.Nodup.append hinv.nodup (by simp) ?_
              intro a haa hab
              simp at hab
              subst hab
              have hcn := hguard.1
              simp only [BuildState.builtNames, List.mem_cons] at hcn
              exact hcn (Or.inr haa)
            · intro nm hnm
              rw [ho, List.map_append] at hnm
              simp only [List.mem_append, List.map_cons, List.map_nil,
                List.mem_singleton] at hnm
              rcases hnm with hnm | hnm
              · exact hinv.mem_specs nm hnm
              · subst hnm
                exact name_mem_specNames specs0 spec nm (hmem spec (by simp)) hn
            · intro p hpmem
              rw [ho] at hpmem
              simp only [List.mem_append, List.mem_singleton] at hpmem
              rcases hpmem with hpmem | hpmem
              · exact hinv.parents p hpmem
              · subst hpmem
                exact hp
        · exact ih st added st' added' h (fun s hs => hmem s (by simp [hs])) hinv

/-- The construction loop preserves the invariant and can only return
once every spec is built. -/
theorem buildLoop_inv (σ : RStream) (cfg : Config) (load : Bool)
    (specs : List NodeSpec) (edges : List (String × String)) :
    ∀ (fuel : ℕ) (st st' : BuildState),
      buildLoop σ cfg load specs edges fuel st = .ok st' →
      BuildInvariant specs edges st →
      BuildInvariant specs edges st' ∧ specs.length ≤ st'.added_nodes.length := by
  intro fuel
  induction fuel with
  | zero => intro st st' h _; simp [buildLoop] at h
  | succ f ih =>
    intro st st' h hinv
    simp only [buildLoop] at h
    split at h
    · simp only [bind, Except.bind] at h
      cases hsp : scanPass σ cfg load edges specs st false with
      | error e => simp [hsp] at h
      | ok v =>
        obtain ⟨st2, added⟩ := v
        simp only [hsp] at h
        cases added with
        | false => simp at h
        | true =>
          simp only [if_pos rfl] at h
          exact ih st2 st' h
            (scanPass_inv σ cfg load edges specs specs st false st2 true hsp
              (fun s hs => hs) hinv)
    · next hge =>
      have he := Except.ok.inj h
      rw [← he]
      exact ⟨hinv, by omega⟩

/-- A list extends a base topologically when each element has all its
in-neighbors in the base or earlier in the list, and is itself fresh. -/
def soundExt (edges : List (String × String)) : List String → List String → Prop
  | _, [] => True
  | base, v :: rest =>
    (∀ u ∈ inNeighbors edges v, u ∈ base) ∧ v ∉ base ∧
      soundExt edges (base ++ [v]) rest

/-- What a successful topoPick guarantees. -/
theorem topoPick_spec (gnodes : List String) (edges : List (String × String))
    (emitted : List String) (v : String) (h : topoPick gnodes edges emitted = some v) :
    v ∈ gnodes ∧ v ∉ emitted ∧ ∀ u ∈ inNeighbors edges v, u ∈ emitted := by
  have hm := List.mem_of_find?_eq_some h
  have hp := List.find?_some h
  simp only [Bool.and_eq_true, Bool.not_eq_true', List.all_eq_true] at hp
  refine ⟨hm, ?_, ?_⟩
  · intro hv
    have h1 := hp.1
    simp [hv] at h1
  · intro u hu
    have h2 := hp.2 u hu
    simpa using h2

/-- topoSortAux emits a topological extension of whatever is already
emitted, drawn from the graph nodes. -/
theorem topoSortAux_ext (gnodes : List String) (edges : List (String × String)) :
    ∀ (fuel : ℕ) (emitted : List String),
      ∃ t, topoSortAux gnodes edges fuel emitted = emitted ++ t ∧
        soundExt edges emitted t ∧ ∀ v ∈ t, v ∈ gnodes := by
  intro fuel
  induction fuel with
  | zero =>
    intro emitted
    exact ⟨[], by simp [topoSortAux], trivial, by simp⟩
  | succ f ih =>
    intro emitted
    cases hp : topoPick gnodes edges emitted with
    | none => exact ⟨[], by simp [topoSortAux, hp], trivial, by simp⟩
    | some v =>
      obtain ⟨hvg, hvne, hvin⟩ := topoPick_spec gnodes edges emitted v hp
      obtain ⟨t, h1, h2, h3⟩ := ih (emitted ++ [v])
      refine ⟨v :: t, ?_, ⟨hvin, hvne, h2⟩, ?_⟩
      · simp only [topoSortAux, hp, h1, List.append_assoc, List.singleton_append]
      · intro w hw
        rcases List.mem_cons.mp hw with hw | hw
        · subst hw; exact hvg
        · exact h3 w hw

/-- Topological extensions keep the emitted list duplicate free. -/
theorem soundExt_nodup (edges : List (String × String)) :
    ∀ (t base : List String), soundExt edges base t → base.Nodup → (base ++ t).Nodup := by
  intro t
  induction t with
  | nil => intro base _ h; simpa using h
  | cons v rest ih =>
    intro base h hb
    obtain ⟨hin, hvne, hrest⟩ := h
    have : base ++ v :: rest = (base ++ [v]) ++ rest := by simp
    rw [this]
    refine ih (base ++ [v]) hrest ?_
    simp [List.nodup_append, hb, hvne]

/-- In a topological extension, every element has its in-neighbors in
the base or strictly before it. -/
theorem soundExt_sound (edges : List (String × String)) :
    ∀ (t base pre : List String) (v : String) (post : List String),
      soundExt edges base t → t = pre ++ v :: post →
      ∀ u ∈ inNeighbors edges v, u ∈ base ++ pre := by
  intro t
  induction t with
  | nil =>
    intro base pre v post _ heq
    exact absurd heq (by simp)
  | cons w rest ih =>
    intro base pre v post h heq
    obtain ⟨hin, hwne, hrest⟩ := h
    cases pre with
    | nil =>
      simp only [List.nil_append, List.cons.injEq] at heq
      intro u hu
      rw [heq.1] at hin
      simpa using hin u hu
    | cons p pre' =>
      simp only [List.cons_append, List.cons.injEq] at heq
      obtain ⟨hwp, hteq⟩ := heq
      intro u hu
      have := ih (base ++ [w]) pre' v post hrest hteq u hu
      subst hwp
      simpa [List.append_assoc] using this

/-- Two duplicate-free lists with the first contained in the second and
at least as long have the same members. -/
theorem mem_of_nodup_subset_le (l1 l2 : List String) (h1 : l1.Nodup) (h2 : l2.Nodup)
    (hsub : ∀ x ∈ l1, x ∈ l2) (hlen : l2.length ≤ l1.length) :
    ∀ x ∈ l2, x ∈ l1 := by
  have hfsub : l1.toFinset ⊆ l2.toFinset := by
    intro x hx
    rw [List.mem_toFinset] at hx ⊢
    exact hsub x hx
  have hc1 : l1.toFinset.card = l1.length := by
    rw [List.toFinset_card_of_nodup h1]
  have hc2 : l2.toFinset.card = l2.length := by
    rw [List.toFinset_card_of_nodup h2]
  have heq : l1.toFinset = l2.toFinset := by
    apply Finset.eq_of_subset_of_card_le hfsub
    omega
  intro x hx
  have : x ∈ l1.toFinset := by rw [heq, List.mem_toFinset]; exact hx
  rwa [List.mem_toFinset] at this

/-- Membership in ndInsert. -/
theorem mem_ndInsert (l : List String) (x y : String) :
    y ∈ ndInsert l x ↔ y ∈ l ∨ y = x := by
  by_cases h : x ∈ l
  · simp only [ndInsert, if_pos h]
    constructor
    · exact Or.inl
    · rintro (hy | hy)
      · exact hy
      · subst hy; exact h
  · simp [ndInsert, if_neg h]

/-- ndInsert keeps lists duplicate free. -/
theorem ndInsert_nodup (l : List String) (x : String) (h : l.Nodup) :
    (ndInsert l x).Nodup := by
  by_cases hx : x ∈ l
  · simpa [ndInsert, hx] using h
  · simp [ndInsert, hx, List.nodup_append, h]

/-- The nodes of the built graph: the sampling names plus edge
endpoints. -/
theorem graphNodes_mem (names : List String) (edges : List (String × String)) :
    ∀ x ∈ graphNodes names edges,
      x ∈ names ∨ ∃ e ∈ edges, x = e.1 ∨ x = e.2 := by
  suffices hgen : ∀ (el : List (String × String)) (acc : List String),
      ∀ x ∈ el.foldl (fun acc e => ndInsert (ndInsert acc e.1) e.2) acc,
        x ∈ acc ∨ ∃ e ∈ el, x = e.1 ∨ x = e.2 by
    intro x hx
    exact hgen edges names x hx
  intro el
  induction el with
  | nil => intro acc x hx; exact Or.inl hx
  | cons e rest ih =>
    intro acc x hx
    rcases ih (ndInsert (ndInsert acc e.1) e.2) x hx with hx | ⟨e', he', hxe⟩
    · rcases (mem_ndInsert _ _ _).mp hx with hx | hx
      · rcases (mem_ndInsert _ _ _).mp hx with hx | hx
        · exact Or.inl hx
        · exact Or.inr ⟨e, by simp, Or.inl hx⟩
      · exact Or.inr ⟨e, by simp, Or.inr hx⟩
    · exact Or.inr ⟨e', by simp [he'], hxe⟩

/-- The sampling names are graph nodes. -/
theorem graphNodes_super (names : List String) (edges : List (String × String)) :
    ∀ x ∈ names, x ∈ graphNodes names edges := by
  suffices hgen : ∀ (el : List (String × String)) (acc : List String),
      ∀ x ∈ acc, x ∈ el.foldl (fun acc e => ndInsert (ndInsert acc e.1) e.2) acc by
    intro x hx
    exact hgen edges names x hx
  intro el
  induction el with
  | nil => intro acc x hx; exact hx
  | cons e rest ih =>
    intro acc x hx
    exact ih _ x ((mem_ndInsert _ _ _).mpr (Or.inl ((mem_ndInsert _ _ _).mpr (Or.inl hx))))

/-- The graph node list is duplicate free when the name list is. -/
theorem graphNodes_nodup (names : List String) (edges : List (String × String))
    (h : names.Nodup) : (graphNodes names edges).Nodup := by
  suffices hgen : ∀ (el : List (String × String)) (acc : List String), acc.Nodup →
      (el.foldl (fun acc e => ndInsert (ndInsert acc e.1) e.2) acc).Nodup by
    exact hgen edges names h
  intro el
  induction el with
  | nil => intro acc h; exact h
  | cons e rest ih =>
    intro acc h
    exact ih _ (ndInsert_nodup _ _ (ndInsert_nodup _ _ h))

/-- The output-entry shape stated by the specification: the sampled
parameter value first, then the severity, then the sampled marker, then
the defaults merged with dict-update semantics. -/
def entryShape (parameter : String) (defaults : List (String × PyVal))
    (rv sv : ℚ) : Entry :=
  defaults.foldl (fun acc pd => dictSet acc pd.1 pd.2)
    (dictSet (dictSet (dictSet [] parameter (.num rv)) "severity" (.num sv))
      "sampled" (.str parameter))

/-- Every successful causal-function call yields an entry of the spec
shape. -/
theorem causal_func_shape (fns : SpecialFns) (σ : RStream) (obj : NodeObj)
    (acc : SampleMap) (pos : ℕ) (e : Entry) (q : ℕ)
    (h : causal_func fns σ obj acc pos = .ok (e, q)) :
    ∃ rv sv, e = entryShape obj.parameter obj.defaults rv sv := by
  simp only [causal_func, bind, Except.bind] at h
  cases hs : sampling_function fns σ obj acc pos with
  | error err => simp [hs] at h
  | ok v =>
    obtain ⟨⟨rv, sv⟩, q'⟩ := v
    simp only [hs, Except.ok.injEq, Prod.mk.injEq] at h
    exact ⟨rv, sv, h.1.symm⟩

/-- Assigning a fresh key appends the binding. -/
theorem dictSet_fresh {α : Type} (l : List (String × α)) (k : String) (v : α)
    (h : k ∉ l.map Prod.fst) : dictSet l k v = l ++ [(k, v)] := by
  induction l with
  | nil => rfl
  | cons hd tl ih =>
    simp only [List.map_cons, List.mem_cons] at h
    push_neg at h
    simp only [dictSet, if_neg (Ne.symm h.1)]
    rw [ih h.2]
    simp

/-- Walking an order with fresh, duplicate-free names and no
interventions appends one spec-shaped entry per non-root name, in
order. -/
theorem sampleLoop_plain_spec (fns : SpecialFns) (σ : RStream)
    (objs : List (String × NodeObj)) :
    ∀ (order : List String) (acc : SampleMap) (pos : ℕ) (ps : SampleMap) (pos' : ℕ),
      sampleLoop fns σ [] objs order acc pos = .ok (ps, pos') →
      order.Nodup → (∀ n ∈ order, n ∉ acc.map Prod.fst) →
      ∃ t : SampleMap, ps = acc ++ t ∧
        t.map Prod.fst = order.filter (fun n => !(strLower n = "root")) ∧
        ∀ q ∈ t, ∃ obj rv sv, dictGet objs q.1 = some obj ∧
          q.2 = entryShape obj.parameter obj.defaults rv sv := by
  intro order
  induction order with
  | nil =>
    intro acc pos ps pos' h _ _
    simp only [sampleLoop, Except.ok.injEq, Prod.mk.injEq] at h
    exact ⟨[], by simp [← h.1], by simp, by simp⟩
  | cons n rest ih =>
    intro acc pos ps pos' h hnd hfresh
    by_cases hroot : strLower n = "root"
    · simp only [sampleLoop, if_pos hroot] at h
      obtain ⟨t, h1, h2, h3⟩ := ih acc pos ps pos' h (List.Nodup.of_cons hnd)
        (fun m hm => hfresh m (by simp [hm]))
      exact ⟨t, h1, by simp [List.filter_cons, hroot, h2], h3⟩
    · simp only [sampleLoop, if_neg hroot] at h
      cases hobj : dictGet objs n with
      | none => simp [hobj] at h
      | some obj =>
        simp only [hobj] at h
        cases hcf : causal_func fns σ obj acc pos with
        | error err => simp [hcf, bind, Except.bind] at h
        | ok v =>
          obtain ⟨e, q⟩ := v
          simp only [hcf, bind, Except.bind, dictGet, List.find?, Option.map] at h
          have hfn : n ∉ acc.map Prod.fst := hfresh n (by simp)
          rw [dictSet_fresh acc n e hfn] at h
          have hfr2 : ∀ m ∈ rest, m ∉ (acc ++ [(n, e)]).map Prod.fst := by
            intro m hm
            simp only [List.map_append, List.mem_append, List.map_cons, List.map_nil,
              List.mem_singleton]
            rintro (hin | hin)
            · exact hfresh m (by simp [hm]) hin
            · have hh := (List.nodup_cons.mp hnd).1
              rw [hin] at hm
              exact hh hm
          obtain ⟨t, h1, h2, h3⟩ := ih (acc ++ [(n, e)]) q ps pos' h
            (List.Nodup.of_cons hnd) hfr2
          refine ⟨(n, e) :: t, ?_, ?_, ?_⟩
          · rw [h1]; simp
          · simp [List.filter_cons, hroot, h2]
          · intro qq hqq
            rcases List.mem_cons.mp hqq with hqq | hqq
            · subst hqq
              obtain ⟨rv, sv, hsh⟩ := causal_func_shape fns σ obj acc pos e q hcf
              exact ⟨obj, rv, sv, hobj, hsh⟩
            · exact h3 qq hqq

/-- A successful dict lookup exhibits a stored binding. -/
theorem dictGet_mem {α : Type} (l : List (String × α)) (k : String) (v : α)
    (h : dictGet l k = some v) : (k, v) ∈ l := by
  simp only [dictGet, Option.map_eq_some'] at h
  obtain ⟨p, hfind, hsnd⟩ := h
  have hmem := List.mem_of_find?_eq_some hfind
  have hkey := List.find?_some hfind
  simp only [decide_eq_true_eq] at hkey
  have : p = (k, v) := by
    cases p
    simp only [Prod.mk.injEq]
    exact ⟨hkey, hsnd⟩
  rw [← this]
  exact hmem

/-- A split of a filtered list lifts to a split of the original list. -/
theorem filter_split {α : Type} (p : α → Bool) :
    ∀ (l l1 : List α) (a : α) (l2 : List α), l.filter p = l1 ++ a :: l2 →
      ∃ m1 m2, l = m1 ++ a :: m2 ∧ m1.filter p = l1 := by
  intro l
  induction l with
  | nil =>
    intro l1 a l2 h
    rw [List.filter_nil] at h
    exact absurd h.symm (by simp)
  | cons x xs ih =>
    intro l1 a l2 h
    by_cases hpx : p x
    · rw [List.filter_cons_of_pos hpx] at h
      cases l1 with
      | nil =>
        simp only [List.nil_append, List.cons.injEq] at h
        exact ⟨[], xs, by simp [h.1], by simp⟩
      | cons y l1' =>
        simp only [List.cons_append, List.cons.injEq] at h
        obtain ⟨hxy, hrest⟩ := h
        obtain ⟨m1, m2, hsplit, hfil⟩ := ih l1' a l2 hrest
        exact ⟨x :: m1, m2, by simp [hsplit],
          by rw [List.filter_cons_of_pos hpx, hfil, hxy]⟩
    · rw [List.filter_cons_of_neg hpx] at h
      obtain ⟨m1, m2, hsplit, hfil⟩ := ih l1 a l2 h
      exact ⟨x :: m1, m2, by simp [hsplit], by rw [List.filter_cons_of_neg hpx, hfil]⟩

/-- What a passing unique-name check guarantees. -/
theorem ensure_unique_names_spec :
    ∀ (nl : List NodeSpec) (seen : List String),
      ensure_unique_names nl seen = .ok () → seen.Nodup →
      (seen ++ specNames nl).Nodup ∧ ∀ nm ∈ specNames nl, nm ≠ "root" := by
  intro nl
  induction nl with
  | nil =>
    intro seen _ hsd
    refine ⟨by simpa [specNames] using hsd, by simp [specNames]⟩
  | cons spec rest ih =>
    intro seen h hsd
    simp only [ensure_unique_names] at h
    cases hn : spec.name with
    | none => rw [hn] at h; simp at h
    | some nm =>
      simp only [hn] at h
      by_cases hroot : nm = "root"
      · rw [if_pos hroot] at h; simp at h
      · rw [if_neg hroot] at h
        by_cases hseen : nm ∈ seen
        · rw [if_pos hseen] at h; simp at h
        · rw [if_neg hseen] at h
          have hnd2 : (seen ++ [nm]).Nodup := by
            simp [List.nodup_append, hsd, hseen]
          obtain ⟨hnodup, hnr⟩ := ih (seen ++ [nm]) h hnd2
          have hsn : specNames (spec :: rest) = nm :: specNames rest := by
            simp [specNames, List.filterMap_cons, hn]
          constructor
          · rw [hsn]
            have : seen ++ nm :: specNames rest = (seen ++ [nm]) ++ specNames rest := by
              simp
            rw [this]
            exact hnodup
          · intro x hx
            rw [hsn] at hx
            rcases List.mem_cons.mp hx with hx | hx
            · subst hx; exact hroot
            · exact hnr x hx

/-- What a passing CustomDAG validation guarantees. -/
theorem customDAG_valid_facts (cfg : Config)
    (h : customDAG_ensure_valid_config cfg = .ok ()) :
    (specNames (cfg.node_list.getD [])).Nodup ∧
    (∀ nm ∈ specNames (cfg.node_list.getD []), nm ≠ "root") ∧
    (∀ e ∈ cfg.edge_list.getD [],
      (e.1 ∈ specNames (cfg.node_list.getD []) ∨ e.1 = "root") ∧
      (e.2 ∈ specNames (cfg.node_list.getD []) ∨ e.2 = "root")) := by
  simp only [customDAG_ensure_valid_config, dagGenerator_ensure_valid_config, bind,
    Except.bind] at h
  cases hnl : cfg.node_list with
  | none => rw [hnl] at h; simp at h
  | some nl =>
    simp only [hnl] at h
    cases hun : ensure_unique_names nl [] with
    | error e => simp only [hun] at h; simp at h
    | ok u =>
      obtain ⟨⟩ := u
      simp only [hun] at h
      obtain ⟨hnodup, hroot⟩ := ensure_unique_names_spec nl [] hun (by simp)
      simp only [List.nil_append] at hnodup
      cases hel : cfg.edge_list with
      | none => simp only [hel] at h; simp at h
      | some el =>
        simp only [hel] at h
        refine ⟨by simpa using hnodup, by simpa using hroot, ?_⟩
        simp only [Option.getD_some]
        split at h
        · next hall =>
          intro e he
          rw [List.all_eq_true] at hall
          have hme := hall e he
          simp only [decide_eq_true_eq, List.mem_append, List.mem_singleton,
            Option.getD_some] at hme
          exact hme
        · simp at h

/-- What a successful build provides on its result model. -/
theorem dagBuild_ok_facts (σ : RStream) (cfg : Config) (seed : ℕ) (load : Bool)
    (m : Model) (h : dagBuild σ cfg seed load = .ok m) :
    ∃ st : BuildState,
      buildLoop σ cfg load (cfg.node_list.getD []) (cfg.edge_list.getD [])
        ((cfg.node_list.getD []).length + 1) ⟨[], [], 0⟩ = .ok st ∧
      customDAG_ensure_valid_config cfg = .ok () ∧
      m.node_objects = st.node_objects ∧ m.corr_funcs = st.added_nodes ∧
      m.edge_list = cfg.edge_list.getD [] ∧ m.pos = st.pos ∧ m.seed = seed ∧
      m.configuration = cfg ∧ m.loadable = load ∧
      (topoSort (graphNodes (st.added_nodes.map Prod.fst)
          (cfg.edge_list.getD [])) (cfg.edge_list.getD [])).length
        = (graphNodes (st.added_nodes.map Prod.fst) (cfg.edge_list.getD [])).length := by
  simp only [dagBuild, bind, Except.bind] at h
  cases hm : cfg.dag_generation_method with
  | none => simp only [hm] at h; simp at h
  | some method =>
    simp only [hm] at h
    by_cases hcd : method = "CustomDAG"
    · rw [if_pos hcd] at h
      cases hvc : customDAG_ensure_valid_config cfg with
      | error e => simp only [hvc] at h; simp at h
      | ok u =>
        obtain ⟨⟩ := u
        simp only [hvc] at h
        split at h
        · simp at h
        · cases hbl : buildLoop σ cfg load (cfg.node_list.getD [])
              (cfg.edge_list.getD []) ((cfg.node_list.getD []).length + 1)
              ⟨[], [], 0⟩ with
          | error e => simp [hbl] at h
          | ok st =>
            simp only [hbl] at h
            split at h
            · next hlen =>
              have he := Except.ok.inj h
              exact ⟨st, rfl, rfl, by rw [← he], by rw [← he], by rw [← he],
                by rw [← he], by rw [← he], by rw [← he], by rw [← he], hlen⟩
            · simp at h
    · rw [if_neg hcd] at h
      simp at h

/-- C9 amended: every sample of a successfully built model produces an
ordered mapping without duplicate keys whose key set is exactly the
spec node names excluding every name whose lowercase form is root (not
only the exact name root: a node named Root builds but is silently
skipped), in an order where each entry comes after the entries of all
of its non-root-named parents, each entry having the documented shape. -/
theorem C9_amended_sample_keys_topological (fns : SpecialFns) (σ : RStream)
    (cfg : Config) (seed : ℕ) (load : Bool) (m : Model) (ps : SampleMap)
    (endPos : ℕ)
    (hb : dagBuild σ cfg seed load = .ok m)
    (hs : Model.sample fns σ m [] = .ok (ps, endPos)) :
    (ps.map Prod.fst).Nodup ∧
    (∀ n, n ∈ ps.map Prod.fst ↔
      (n ∈ specNames (cfg.node_list.getD []) ∧ ¬ strLower n = "root")) ∧
    (∀ pre n e post, ps = pre ++ (n, e) :: post →
      ∃ obj rv sv, dictGet m.node_objects n = some obj ∧
        e = entryShape obj.parameter obj.defaults rv sv ∧
        ∀ p ∈ obj.parentNames, strLower p = "root" ∨ p ∈ pre.map Prod.fst) := by
  obtain ⟨st, hbl, hvc, hno, hcfn, hel, hpos, _, _, _, hlen⟩ :=
    dagBuild_ok_facts σ cfg seed load m hb
  obtain ⟨hnodupS, hrootS, hends⟩ := customDAG_valid_facts cfg hvc
  have hinv0 : BuildInvariant (cfg.node_list.getD []) (cfg.edge_list.getD [])
      ⟨[], [], 0⟩ := ⟨rfl, by simp, by simp, by simp⟩
  obtain ⟨hinv, hlenadded⟩ := buildLoop_inv σ cfg load (cfg.node_list.getD [])
    (cfg.edge_list.getD []) _ _ _ hbl hinv0
  have hnamesNodup : (st.node_objects.map Prod.fst).Nodup := hinv.nodup
  have hnamesSub : ∀ n ∈ st.node_objects.map Prod.fst,
      n ∈ specNames (cfg.node_list.getD []) := hinv.mem_specs
  have hspecLen : (specNames (cfg.node_list.getD [])).length ≤
      (st.node_objects.map Prod.fst).length := by
    have h1 : (specNames (cfg.node_list.getD [])).length ≤
        (cfg.node_list.getD []).length := List.length_filterMap_le _ _
    have h2 : (st.node_objects.map Prod.fst).length = st.added_nodes.length := by
      rw [hinv.names_eq]; simp
    omega
  have hnamesSetEq : ∀ x ∈ specNames (cfg.node_list.getD []),
      x ∈ st.node_objects.map Prod.fst :=
    mem_of_nodup_subset_le _ _ hnamesNodup hnodupS hnamesSub hspecLen
  have hnn : st.added_nodes.map Prod.fst = st.node_objects.map Prod.fst :=
    hinv.names_eq.symm
  rw [hnn] at hlen
  have hgnnodup : (graphNodes (st.node_objects.map Prod.fst)
      (cfg.edge_list.getD [])).Nodup :=
    graphNodes_nodup _ _ hnamesNodup
  obtain ⟨t, hts, hsound, htg⟩ := topoSortAux_ext
    (graphNodes (st.node_objects.map Prod.fst) (cfg.edge_list.getD []))
    (cfg.edge_list.getD [])
    (graphNodes (st.node_objects.map Prod.fst) (cfg.edge_list.getD [])).length []
  have horder : topoSort (graphNodes (st.node_objects.map Prod.fst)
      (cfg.edge_list.getD [])) (cfg.edge_list.getD []) = t := by
    rw [topoSort, hts]; simp
  have htnodup : t.Nodup := by
    have := soundExt_nodup (cfg.edge_list.getD []) t [] hsound (by simp)
    simpa using this
  have hlen2 : (graphNodes (st.node_objects.map Prod.fst)
      (cfg.edge_list.getD [])).length ≤ t.length := by
    rw [horder] at hlen
    omega
  have hcomplete : ∀ x ∈ graphNodes (st.node_objects.map Prod.fst)
      (cfg.edge_list.getD []), x ∈ t :=
    mem_of_nodup_subset_le t _ htnodup hgnnodup htg hlen2
  simp only [Model.sample] at hs
  rw [hno, hel, horder] at hs
  obtain ⟨tps, htps, hkeys, hshapes⟩ := sampleLoop_plain_spec fns σ st.node_objects
    t [] m.pos ps endPos hs htnodup (by simp)
  have hpst : ps = tps := by simpa using htps
  subst hpst
  refine ⟨?_, ?_, ?_⟩
  · rw [hkeys]
    exact List.Nodup.filter _ htnodup
  · intro n
    rw [hkeys, List.mem_filter]
    constructor
    · rintro ⟨hnt, hpred⟩
      simp only [Bool.not_eq_eq_eq_not, Bool.not_true, decide_eq_false_iff_not] at hpred
      refine ⟨?_, hpred⟩
      rcases graphNodes_mem _ _ n (htg n hnt) with hn | ⟨e, he, hne⟩
      · exact hnamesSub n hn
      · have hedge := hends e he
        rcases hne with hne | hne
        · rcases hedge.1 with hh | hh
          · rw [hne]; exact hh
          · exact absurd (by rw [hne, hh]; exact strLower_root) hpred
        · rcases hedge.2 with hh | hh
          · rw [hne]; exact hh
          · exact absurd (by rw [hne, hh]; exact strLower_root) hpred
    · rintro ⟨hns, hpred⟩
      refine ⟨hcomplete n (graphNodes_super _ _ n (hnamesSetEq n hns)), ?_⟩
      simp only [Bool.not_eq_eq_eq_not, Bool.not_true, decide_eq_false_iff_not]
      exact hpred
  · intro pre n e post hsplit
    have hmem : (n, e) ∈ ps := by rw [hsplit]; simp
    obtain ⟨obj, rv, sv, hobj, hshape⟩ := hshapes (n, e) hmem
    refine ⟨obj, rv, sv, by rw [hno]; exact hobj, hshape, ?_⟩
    have hpair : (n, obj) ∈ st.node_objects := dictGet_mem _ _ _ hobj
    have hparents := hinv.parents (n, obj) hpair
    intro p hp
    rw [hparents] at hp
    rw [List.mem_filter] at hp
    by_cases hplow : strLower p = "root"
    · exact Or.inl hplow
    · right
      have hkeysplit : ps.map Prod.fst
          = pre.map Prod.fst ++ n :: post.map Prod.fst := by
        rw [hsplit]; simp
      rw [hkeys] at hkeysplit
      obtain ⟨o1, o2, htsplit, hfil⟩ := filter_split _ t (pre.map Prod.fst) n
        (post.map Prod.fst) hkeysplit
      have hpo1 : p ∈ o1 := by
        have := soundExt_sound (cfg.edge_list.getD []) t [] o1 n o2 hsound htsplit
          p hp.1
        simpa using this
      have : p ∈ o1.filter (fun n => !(strLower n = "root")) := by
        rw [List.mem_filter]
        exact ⟨hpo1, by simpa using hplow⟩
      rw [hfil] at this
      exact this

/-- The model built from cfg0. -/
def m0 : Model :=
  { node_objects := [("A", .ws "A" [] "size" [] 0 1 1 0 1 1 "increasing" 0 1 "tanh" [])]
    corr_funcs := [("A", "blur")]
    edge_list := [("root", "A")]
    pos := 0
    seed := 1
    configuration := cfg0
    loadable := false }

/-- Witness for the amended C9 on the single-node config. -/
theorem C9_amended_sample_keys_topological_witness :
    ∃ (ps : SampleMap) (endPos : ℕ),
      dagBuild sigmaNat cfg0 1 false = .ok m0 ∧
      Model.sample fnsId sigmaNat m0 [] = .ok (ps, endPos) ∧
      ((ps.map Prod.fst).Nodup ∧
       (∀ n, n ∈ ps.map Prod.fst ↔
         (n ∈ specNames (cfg0.node_list.getD []) ∧ ¬ strLower n = "root")) ∧
       (∀ pre n e post, ps = pre ++ (n, e) :: post →
         ∃ obj rv sv, dictGet m0.node_objects n = some obj ∧
           e = entryShape obj.parameter obj.defaults rv sv ∧
           ∀ p ∈ obj.parentNames, strLower p = "root" ∨ p ∈ pre.map Prod.fst)) := by
  have hb : dagBuild sigmaNat cfg0 1 false = .ok m0 := by decide
  have hs : Model.sample fnsId sigmaNat m0 []
      = .ok ([("A", [("size", .num (1/2)), ("severity", .num (1/2)),
                     ("sampled", .str "size")])], 1) := by
    simp [Model.sample, sampleLoop, causal_func, sampling_function, ws_sampling_function,
      sumParentTerms, rngNormal, rawDraw, activation_fn, get_severity_from_render_value,
      dictSet, dictGet, m0, fnsId, sigmaNat, graphNodes, ndInsert, inNeighbors, topoPick,
      topoSortAux, topoSort, NodeObj.parameter, NodeObj.defaults, Bind.bind, Except.bind,
      strLower_A, strLower_root]
  have h := C9_amended_sample_keys_topological fnsId sigmaNat cfg0 1 false m0 _ _ hb hs
  exact ⟨_, _, hb, hs, h⟩

/-- Number of stream draws the construction of a node consumes when its
bias determination draws nothing: one uniform edge-weight draw per
stored parent for a weighted-sum node, none for a constant node.  This
is also the draw count of every reload, since a persisted bias is the
frozen numeric value. -/
def nodeLoadDraws : NodeObj → ℕ
  | .ws _ prs _ _ _ _ _ _ _ _ _ _ _ _ _ => prs.length
  | .const _ _ _ _ _ _ => 0

/-- The value constraints that a successful validation leaves on a
stored node object. -/
def ValidObj : NodeObj → Prop
  | .ws _ _ _ _ mn mx _ _ ba bb ct _ sd act _ =>
      mn < mx ∧ (ct = "increasing" ∨ ct = "decreasing" ∨ ct = "centered") ∧
      0 < ba ∧ 0 < bb ∧ 0 < sd ∧ (act = "sigmoid" ∨ act = "tanh")
  | .const _ _ _ _ _ sv => 0 ≤ sv ∧ sv ≤ 1

/-- Everything the reload of one stored node needs to know about it:
the object is filed under its own name, its parents are the distinct
non-root in-neighbors, it has at least one in-neighbor, and its fields
passed validation. -/
def NodeFacts (edges : List (String × String)) (n : String) (obj : NodeObj) : Prop :=
  obj.name = n ∧
  obj.parentNames = (inNeighbors edges n).filter (fun q => q ≠ "root") ∧
  ¬ (inNeighbors edges n).isEmpty = true ∧
  ValidObj obj

/-- A construction order is ready when every node is built only after
all of its in-neighbors are in scope. -/
def ReadyOrder (edges : List (String × String)) :
    List String → List (String × NodeObj) → Prop
  | _, [] => True
  | seen, (n, _) :: rest =>
      (∀ p ∈ inNeighbors edges n, p ∈ seen) ∧ ReadyOrder edges (seen ++ [n]) rest

/-- Appending a node whose in-neighbors are all in scope preserves
readiness of the order. -/
theorem ReadyOrder_append (edges : List (String × String)) :
    ∀ (l : List (String × NodeObj)) (seen : List String) (n : String) (obj : NodeObj),
      ReadyOrder edges seen l →
      (∀ p ∈ inNeighbors edges n, p ∈ seen ++ l.map Prod.fst) →
      ReadyOrder edges seen (l ++ [(n, obj)]) := by
  intro l
  induction l with
  | nil =>
    intro seen n obj _ hp
    refine ⟨?_, trivial⟩
    intro p hpm
    simpa using hp p hpm
  | cons hd tl ih =>
    intro seen n obj hro hp
    obtain ⟨m, o⟩ := hd
    obtain ⟨h1, h2⟩ := hro
    refine ⟨h1, ih (seen ++ [m]) n obj h2 ?_⟩
    intro p hpm
    have := hp p hpm
    simpa [List.append_assoc] using this

/-- Splitting a ready order: the tail is ready once the prefix names are
in scope. -/
theorem ReadyOrder_split (edges : List (String × String)) :
    ∀ (l1 l2 : List (String × NodeObj)) (seen : List String),
      ReadyOrder edges seen (l1 ++ l2) →
      ReadyOrder edges (seen ++ l1.map Prod.fst) l2 := by
  intro l1
  induction l1 with
  | nil =>
    intro l2 seen h
    simpa using h
  | cons hd tl ih =>
    intro l2 seen h
    obtain ⟨m, o⟩ := hd
    obtain ⟨h1, h2⟩ := h
    have := ih l2 (seen ++ [m]) h2
    simpa [List.append_assoc] using this

/-- The edge-weight sampling loop consumes exactly one draw per listed
parent. -/
theorem sampleEdgeWeights_snd (σ : RStream) :
    ∀ (prs : List String) (pos : ℕ) (acc : List (String × ℚ)),
      (sampleEdgeWeights σ prs pos acc).2 = pos + prs.length := by
  intro prs
  induction prs with
  | nil => intro pos acc; simp [sampleEdgeWeights]
  | cons p ps ih =>
    intro pos acc
    simp only [sampleEdgeWeights, rngUniform, rawDraw]
    rw [ih]
    simp
    omega

/-- A bias request other than the string random consumes no draw. -/
theorem computeBias_snd (σ : RStream) (bv : PyVal) (pos : ℕ)
    (h : bv ≠ .str "random") : (computeBias σ bv pos).2 = pos := by
  cases bv with
  | num q => simp [computeBias]
  | bool b => simp [computeBias]
  | str s =>
    have hs : s ≠ "random" := by
      intro he
      exact h (by rw [he])
    simp [computeBias, hs]
  | none => simp [computeBias]

/-- Lookup of a bound pair in a dict whose keys are duplicate free. -/
theorem dictGet_of_mem {α : Type} :
    ∀ (l : List (String × α)) (k : String) (v : α),
      (l.map Prod.fst).Nodup → (k, v) ∈ l → dictGet l k = some v := by
  intro l
  induction l with
  | nil => intro k v _ hm; simp at hm
  | cons hd tl ih =>
    intro k v hnd hm
    obtain ⟨k2, v2⟩ := hd
    simp only [List.map_cons, List.nodup_cons] at hnd
    rcases List.mem_cons.mp hm with he | hm2
    · obtain ⟨hk, hv⟩ := Prod.mk.injEq .. ▸ he
      subst hk
      subst hv
      simp [dictGet, List.find?_cons_of_pos]
    · have hk2 : ¬ k2 = k := by
        intro he2
        subst he2
        exact hnd.1 (by simpa using List.mem_map_of_mem Prod.fst hm2)
      have : dictGet ((k2, v2) :: tl) k = dictGet tl k := by
        simp [dictGet, List.find?_cons_of_neg, hk2]
      rw [this]
      exact ih k v hnd.2 hm2

/-- The persisted form of a node keeps its name. -/
theorem nodeToYaml_name (cf : String) (obj : NodeObj) :
    (nodeToYaml cf obj).name = some obj.name := by
  cases obj <;> rfl

/-- The node list written by save, as a function of the stored objects
and corruption tags. -/
def savedList (corrs : List (String × String)) (objs : List (String × NodeObj)) :
    List NodeSpec :=
  objs.map (fun p => nodeToYaml ((dictGet corrs p.1).getD "") p.2)

/-- The saved config carries exactly the savedList node list. -/
theorem save_node_list (m : Model) :
    (Model.save m).node_list = some (savedList m.corr_funcs m.node_objects) := rfl

/-- Names of the persisted node list are the stored keys. -/
theorem savedList_names (corrs : List (String × String)) :
    ∀ (objs : List (String × NodeObj)),
      (∀ p ∈ objs, p.2.name = p.1) →
      specNames (savedList corrs objs) = objs.map Prod.fst := by
  intro objs
  induction objs with
  | nil => intro _; simp [savedList, specNames]
  | cons hd tl ih =>
    intro hnm
    obtain ⟨k, o⟩ := hd
    have hk : o.name = k := hnm (k, o) (by simp)
    have htl := ih (fun p hp => hnm p (by simp [hp]))
    simp only [savedList, List.map_cons, specNames, List.filterMap_cons,
      nodeToYaml_name, hk]
    simp only [savedList, specNames] at htl
    simp [htl]

/-- Finding a stored node by name in the persisted node list. -/
theorem savedList_find (corrs : List (String × String)) :
    ∀ (objs : List (String × NodeObj)) (n : String) (obj : NodeObj),
      (objs.map Prod.fst).Nodup →
      (∀ p ∈ objs, p.2.name = p.1) →
      (n, obj) ∈ objs →
      (savedList corrs objs).find? (fun s => s.name = some n)
        = some (nodeToYaml ((dictGet corrs n).getD "") obj) := by
  intro objs
  induction objs with
  | nil => intro n obj _ _ hm; simp at hm
  | cons hd tl ih =>
    intro n obj hnd hnm hm
    obtain ⟨k, o⟩ := hd
    simp only [List.map_cons, List.nodup_cons] at hnd
    have hk : o.name = k := hnm (k, o) (by simp)
    rcases List.mem_cons.mp hm with he | hm2
    · obtain ⟨h1, h2⟩ := Prod.mk.injEq .. ▸ he
      subst h1
      subst h2
      simp only [savedList, List.map_cons]
      rw [List.find?_cons_of_pos]
      simp [nodeToYaml_name, hk]
    · have hne : ¬ k = n := by
        intro he2
        subst he2
        exact hnd.1 (by simpa using List.mem_map_of_mem Prod.fst hm2)
      simp only [savedList, List.map_cons]
      rw [List.find?_cons_of_neg]
      · exact ih n obj hnd.2 (fun p hp => hnm p (by simp [hp])) hm2
      · simp [nodeToYaml_name, hk, hne]

/-- Sufficient conditions for the name-uniqueness validation to pass. -/
theorem ensure_unique_names_ok :
    ∀ (nl : List NodeSpec) (seen : List String),
      (∀ s ∈ nl, s.name.isSome) →
      (∀ nm ∈ specNames nl, nm ≠ "root") →
      (seen ++ specNames nl).Nodup →
      ensure_unique_names nl seen = .ok () := by
  intro nl
  induction nl with
  | nil => intro seen _ _ _; rfl
  | cons spec rest ih =>
    intro seen hsome hroot hnd
    obtain ⟨nm, hn⟩ := Option.isSome_iff_exists.mp (hsome spec (by simp))
    have hsn : specNames (spec :: rest) = nm :: specNames rest := by
      simp [specNames, List.filterMap_cons, hn]
    rw [hsn] at hnd hroot
    have hnm_root : nm ≠ "root" := hroot nm (by simp)
    have hnm_seen : nm ∉ seen := by
      have hd := List.disjoint_of_nodup_append hnd
      intro hin
      exact hd hin (by simp)
    simp only [ensure_unique_names, hn]
    rw [if_neg hnm_root, if_neg hnm_seen]
    refine ih (seen ++ [nm]) (fun s hs => hsome s (by simp [hs]))
      (fun x hx => hroot x (by simp [hx])) ?_
    have : seen ++ nm :: specNames rest = (seen ++ [nm]) ++ specNames rest := by
      simp
    rw [← this]
    exact hnd

/-- A passing name-uniqueness validation implies every spec is named. -/
theorem ensure_unique_names_isSome :
    ∀ (nl : List NodeSpec) (seen : List String),
      ensure_unique_names nl seen = .ok () → ∀ s ∈ nl, s.name.isSome := by
  intro nl
  induction nl with
  | nil => intro seen _ s hs; simp at hs
  | cons spec rest ih =>
    intro seen h s hs
    simp only [ensure_unique_names] at h
    cases hn : spec.name with
    | none => rw [hn] at h; simp at h
    | some nm =>
      simp only [hn] at h
      by_cases hroot : nm = "root"
      · rw [if_pos hroot] at h; simp at h
      · rw [if_neg hroot] at h
        by_cases hseen : nm ∈ seen
        · rw [if_pos hseen] at h; simp at h
        · rw [if_neg hseen] at h
          rcases List.mem_cons.mp hs with he | hm
          · subst he; simp [hn]
          · exact ih (seen ++ [nm]) h s hm

/-- A successful spec fetch returns a listed spec with the requested
name and a defaulted defaults field. -/
theorem get_node_parameters_spec (cfg : Config) (n : String) (spec : NodeSpec)
    (h : get_node_parameters cfg n = .ok spec) :
    ∃ spec0, spec0 ∈ cfg.node_list.getD [] ∧ spec0.name = some n ∧
      spec = { spec0 with defaults := some (spec0.defaults.getD []) } := by
  simp only [get_node_parameters] at h
  cases hf : (cfg.node_list.getD []).find? (fun s => s.name = some n) with
  | none => simp [hf] at h
  | some spec0 =>
    simp only [hf] at h
    have hmem := List.mem_of_find?_eq_some hf
    have hp := List.find?_some hf
    simp only [decide_eq_true_eq] at hp
    exact ⟨spec0, hmem, hp, (Except.ok.inj h).symm⟩

/-- The facts a passing weighted-sum validation certifies. -/
theorem ws_valid_facts (p : Params) (h : ws_ensure_valid_node p = .ok ()) :
    ∃ mn mx ct ba bb sd act, p.min_val = some mn ∧ p.max_val = some mx ∧
      p.corruption_type = some ct ∧ p.beta_a = some ba ∧ p.beta_b = some bb ∧
      p.std = some sd ∧ p.activation_type = some act ∧
      mn < mx ∧ (ct = "increasing" ∨ ct = "decreasing" ∨ ct = "centered") ∧
      0 < ba ∧ 0 < bb ∧ 0 < sd ∧ (act = "sigmoid" ∨ act = "tanh") := by
  simp only [ws_ensure_valid_node, bind, Except.bind] at h
  cases h1 : ensureFields p node_necessary_fields with
  | error e => simp only [h1] at h; simp at h
  | ok u =>
    obtain ⟨⟩ := u
    simp only [h1] at h
    cases h2 : ensureFields p ws_necessary_fields with
    | error e => simp only [h2] at h; simp at h
    | ok u =>
      obtain ⟨⟩ := u
      simp only [h2] at h
      cases hmn : p.min_val with
      | none => simp [hmn] at h
      | some mn =>
      cases hmx : p.max_val with
      | none => simp [hmn, hmx] at h
      | some mx =>
      cases hct : p.corruption_type with
      | none => simp [hmn, hmx, hct] at h
      | some ct =>
      cases hba : p.beta_a with
      | none => simp [hmn, hmx, hct, hba] at h
      | some ba =>
      cases hbb : p.beta_b with
      | none => simp [hmn, hmx, hct, hba, hbb] at h
      | some bb =>
      cases hsd : p.std with
      | none => simp [hmn, hmx, hct, hba, hbb, hsd] at h
      | some sd =>
      cases hact : p.activation_type with
      | none => simp [hmn, hmx, hct, hba, hbb, hsd, hact] at h
      | some act =>
      simp only [hmn, hmx, hct, hba, hbb, hsd, hact] at h
      by_cases c1 : mn < mx
      · rw [if_pos c1] at h
        by_cases c2 : ct = "increasing" ∨ ct = "decreasing" ∨ ct = "centered"
        · rw [if_pos c2] at h
          by_cases c3 : (0 : ℚ) < ba
          · rw [if_pos c3] at h
            by_cases c4 : (0 : ℚ) < bb
            · rw [if_pos c4] at h
              by_cases c5 : (0 : ℚ) < sd
              · rw [if_pos c5] at h
                by_cases c6 : act = "sigmoid" ∨ act = "tanh"
                · exact ⟨mn, mx, ct, ba, bb, sd, act, rfl, rfl, rfl, rfl, rfl, rfl,
                    rfl, c1, c2, c3, c4, c5, c6⟩
                · rw [if_neg c6] at h; simp at h
              · rw [if_neg c5] at h; simp at h
            · rw [if_neg c4] at h; simp at h
          · rw [if_neg c3] at h; simp at h
        · rw [if_neg c2] at h; simp at h
      · rw [if_neg c1] at h; simp at h

/-- The facts a passing constant-node validation certifies. -/
theorem const_valid_facts (p : Params) (h : const_ensure_valid_node p = .ok ()) :
    ∃ sv, p.severity_value = some sv ∧ 0 ≤ sv ∧ sv ≤ 1 := by
  simp only [const_ensure_valid_node, bind, Except.bind] at h
  cases h1 : ensureFields p node_necessary_fields with
  | error e => simp only [h1] at h; simp at h
  | ok u =>
    obtain ⟨⟩ := u
    simp only [h1] at h
    cases h2 : ensureFields p const_necessary_fields with
    | error e => simp only [h2] at h; simp at h
    | ok u =>
      obtain ⟨⟩ := u
      simp only [h2] at h
      cases hsv : p.severity_value with
      | none => simp [hsv] at h
      | some sv =>
        simp only [hsv] at h
        split at h
        · next hc => exact ⟨sv, rfl, hc.1, hc.2⟩
        · simp at h

/-- Full characterization of a successful weighted-sum construction. -/
theorem mkWeightedSumNode_eq (σ : RStream) (p : Params) (pos : ℕ)
    (obj : NodeObj) (pos2 : ℕ) (h : mkWeightedSumNode σ p pos = .ok (obj, pos2)) :
    ∃ nm prs prm dfl mn mx ex st0 ba bb ct bv sd act,
      p.name = some nm ∧ p.parents = some prs ∧ p.parameter = some prm ∧
      p.defaults = some dfl ∧ p.min_val = some mn ∧ p.max_val = some mx ∧
      p.extreme = some ex ∧ p.standard = some st0 ∧ p.beta_a = some ba ∧
      p.beta_b = some bb ∧ p.corruption_type = some ct ∧ p.bias = some bv ∧
      p.std = some sd ∧ p.activation_type = some act ∧
      obj = .ws nm prs prm dfl mn mx ex st0 ba bb ct (computeBias σ bv pos).1 sd act
        (sampleEdgeWeights σ prs (computeBias σ bv pos).2 []).1 ∧
      pos2 = (sampleEdgeWeights σ prs (computeBias σ bv pos).2 []).2 := by
  simp only [mkWeightedSumNode] at h
  split at h
  · next nm prs prm dfl mn mx ex st0 ba bb ct bv sd act u hnm hprs hprm hdfl hmn hmx
        hex hst hba hbb hct hbv hsd hact hu =>
    split at h
    · rcases hcb : computeBias σ bv pos with ⟨b, pos1⟩
      simp only [hcb] at h
      rcases hew : sampleEdgeWeights σ prs pos1 [] with ⟨ew, posE⟩
      simp only [hew] at h
      have he := Except.ok.inj h
      have hobj := (Prod.mk.injEq .. ▸ he).1
      have hpos := (Prod.mk.injEq .. ▸ he).2
      refine ⟨nm, prs, prm, dfl, mn, mx, ex, st0, ba, bb, ct, bv, sd, act, hnm,
        hprs, hprm, hdfl, hmn, hmx, hex, hst, hba, hbb, hct, hbv, hsd, hact, ?_, ?_⟩
      · rw [hcb]
        simp only [hew]
        exact hobj.symm
      · rw [hcb]
        simp only [hew]
        exact hpos.symm
    · simp at h
  · simp at h

/-- Full characterization of a successful constant-node construction. -/
theorem mkConstantNode_eq (p : Params) (obj : NodeObj)
    (h : mkConstantNode p = .ok obj) :
    ∃ nm prs prm dfl rv sv, p.name = some nm ∧ p.parents = some prs ∧
      p.parameter = some prm ∧ p.defaults = some dfl ∧ p.render_value = some rv ∧
      p.severity_value = some sv ∧ obj = .const nm prs prm dfl rv sv := by
  simp only [mkConstantNode] at h
  split at h
  · next nm prs prm dfl rv sv hnm hprs hprm hdfl hrv hsv =>
    exact ⟨nm, prs, prm, dfl, rv, sv, hnm, hprs, hprm, hdfl, hrv, hsv,
      (Except.ok.inj h).symm⟩
  · simp at h

/-- Filtering to the weighted-sum fields keeps every constructor
argument of the spec. -/
theorem filter_ws_fields (spec : NodeSpec) (P : List String) :
    (filter_dict ws_necessary_fields (specToParams spec P)).name = spec.name ∧
    (filter_dict ws_necessary_fields (specToParams spec P)).parameter = spec.parameter ∧
    (filter_dict ws_necessary_fields (specToParams spec P)).defaults = spec.defaults ∧
    (filter_dict ws_necessary_fields (specToParams spec P)).min_val = spec.min_val ∧
    (filter_dict ws_necessary_fields (specToParams spec P)).max_val = spec.max_val ∧
    (filter_dict ws_necessary_fields (specToParams spec P)).extreme = spec.extreme ∧
    (filter_dict ws_necessary_fields (specToParams spec P)).standard = spec.standard ∧
    (filter_dict ws_necessary_fields (specToParams spec P)).beta_a = spec.beta_a ∧
    (filter_dict ws_necessary_fields (specToParams spec P)).beta_b = spec.beta_b ∧
    (filter_dict ws_necessary_fields (specToParams spec P)).corruption_type
      = spec.corruption_type ∧
    (filter_dict ws_necessary_fields (specToParams spec P)).bias = spec.bias ∧
    (filter_dict ws_necessary_fields (specToParams spec P)).std = spec.std ∧
    (filter_dict ws_necessary_fields (specToParams spec P)).activation_type
      = spec.activation_type :=
  ⟨rfl, rfl, rfl, rfl, rfl, rfl, rfl, rfl, rfl, rfl, rfl, rfl, rfl⟩

/-- Filtering to the constant-node fields keeps every constructor
argument of the spec. -/
theorem filter_const_fields (spec : NodeSpec) (P : List String) :
    (filter_dict const_necessary_fields (specToParams spec P)).name = spec.name ∧
    (filter_dict const_necessary_fields (specToParams spec P)).parameter
      = spec.parameter ∧
    (filter_dict const_necessary_fields (specToParams spec P)).defaults
      = spec.defaults ∧
    (filter_dict const_necessary_fields (specToParams spec P)).render_value
      = spec.render_value ∧
    (filter_dict const_necessary_fields (specToParams spec P)).severity_value
      = spec.severity_value :=
  ⟨rfl, rfl, rfl, rfl, rfl⟩

/-- Full characterization of one fresh (non-loading) construction step
under non-random biases: it appends the node under the child name,
consumes one stream draw per stored parent, and the stored object
satisfies the reload facts. -/
theorem buildNodeStep_orig (σ : RStream) (cfg : Config)
    (edges : List (String × String)) (n : String) (st st' : BuildState)
    (hnr : ∀ spec ∈ cfg.node_list.getD [], spec.bias ≠ some (.str "random"))
    (h : buildNodeStep σ cfg false edges n st = .ok st') :
    ∃ obj cf, st'.node_objects = st.node_objects ++ [(n, obj)] ∧
      st'.added_nodes = st.added_nodes ++ [(n, cf)] ∧
      st'.pos = st.pos + nodeLoadDraws obj ∧
      NodeFacts edges n obj := by
  simp only [buildNodeStep, bind, Except.bind, decide_not] at h
  cases hgp : get_parents n edges with
  | error e => simp [hgp] at h
  | ok child_parents =>
    simp only [hgp] at h
    cases hsp : get_node_parameters cfg n with
    | error e => simp [hsp] at h
    | ok spec =>
      simp only [hsp] at h
      obtain ⟨spec0, hs0mem, hs0name, hs0eq⟩ := get_node_parameters_spec cfg n spec hsp
      have hcp : child_parents = inNeighbors edges n := by
        rw [get_parents_eq] at hgp
        by_cases hemp : (inNeighbors edges n).isEmpty
        · simp [hemp] at hgp
        · simp [hemp] at hgp
          exact hgp.symm
      have hne : ¬ (inNeighbors edges n).isEmpty = true := by
        rw [get_parents_eq] at hgp
        intro hemp
        simp [hemp] at hgp
      have hspecname : spec.name = some n := by rw [hs0eq]; exact hs0name
      have hspecbias : spec.bias = spec0.bias := by rw [hs0eq]
      cases hty : spec.type with
      | none => rw [hty] at h; simp at h
      | some cls =>
        cases hcf : spec.corruption_func with
        | none => rw [hty, hcf] at h; simp at h
        | some corruption_func =>
          rw [hty, hcf] at h
          simp only [] at h
          by_cases hws : cls = "WeightedSumNode"
          · rw [if_pos hws] at h
            cases hv : ws_ensure_valid_node
                (specToParams spec (child_parents.filter (fun p => !decide (p = "root")))) with
            | error e => rw [hv] at h; simp at h
            | ok u =>
              obtain ⟨⟩ := u
              simp only [hv] at h
              cases hmk : mkWeightedSumNode σ
                  (filter_dict ws_necessary_fields
                    (specToParams spec (child_parents.filter (fun p => !decide (p = "root")))))
                  st.pos with
              | error e => simp [hmk] at h
              | ok v =>
                obtain ⟨node, pos1⟩ := v
                simp only [hmk] at h
                obtain ⟨nm, prs, prm, dfl, mn, mx, ex, st0, ba, bb, ct, bv, sd, act,
                  pnm, pprs, pprm, pdfl, pmn, pmx, pex, pst, pba, pbb, pct, pbv,
                  psd, pact, hobj, hpos1⟩ := mkWeightedSumNode_eq σ _ _ _ _ hmk
                obtain ⟨mn0, mx0, ct0, ba0, bb0, sd0, act0, vmn, vmx, vct, vba, vbb,
                  vsd, vact, c1, c2, c3, c4, c5, c6⟩ := ws_valid_facts _ hv
                obtain ⟨fnm, fprm, fdfl, fmn, fmx, fex, fst, fba, fbb, fct, fbv,
                  fsd, fact⟩ := filter_ws_fields spec
                    (child_parents.filter (fun p => !decide (p = "root")))
                obtain rfl : mn0 = mn :=
                  Option.some.inj (vmn.symm.trans (fmn.symm.trans pmn))
                obtain rfl : mx0 = mx :=
                  Option.some.inj (vmx.symm.trans (fmx.symm.trans pmx))
                obtain rfl : ct0 = ct :=
                  Option.some.inj (vct.symm.trans (fct.symm.trans pct))
                obtain rfl : ba0 = ba :=
                  Option.some.inj (vba.symm.trans (fba.symm.trans pba))
                obtain rfl : bb0 = bb :=
                  Option.some.inj (vbb.symm.trans (fbb.symm.trans pbb))
                obtain rfl : sd0 = sd :=
                  Option.some.inj (vsd.symm.trans (fsd.symm.trans psd))
                obtain rfl : act0 = act :=
                  Option.some.inj (vact.symm.trans (fact.symm.trans pact))
                have hbvne : bv ≠ .str "random" := by
                  intro hbad
                  refine hnr spec0 hs0mem ?_
                  rw [← hspecbias, ← hbad]
                  exact (fbv.symm.trans pbv).symm ▸ rfl
                have hcb2 : (computeBias σ bv st.pos).2 = st.pos :=
                  computeBias_snd σ bv st.pos hbvne
                rw [hcb2, sampleEdgeWeights_snd] at hpos1
                have hprs2 : prs = child_parents.filter (fun p => !decide (p = "root")) :=
                  (Option.some.inj ((filter_ws_parents spec _).symm.trans pprs)).symm
                rw [interveneBlock_none σ _ _ _ (filter_ws_intervene _)] at h
                simp only [] at h
                rw [if_neg Bool.false_ne_true] at h
                have he := Except.ok.inj h
                refine ⟨node, corruption_func, by rw [← he], by rw [← he], ?_, ?_⟩
                · rw [← he]
                  simp only []
                  rw [hpos1, hobj]
                  simp [nodeLoadDraws]
                · refine ⟨?_, ?_, hne, ?_⟩
                  · rw [hobj]
                    simp only [NodeObj.name]
                    exact (Option.some.inj (hspecname.symm.trans
                      (fnm.symm.trans pnm))).symm
                  · rw [hobj]
                    simp only [NodeObj.parentNames]
                    rw [hprs2, hcp]
                    simp [decide_not]
                  · rw [hobj]
                    simp only [ValidObj]
                    exact ⟨c1, c2, c3, c4, c5, c6⟩
          · rw [if_neg hws] at h
            by_cases hcn : cls = "ConstantNode"
            · rw [if_pos hcn] at h
              cases hv : const_ensure_valid_node
                  (specToParams spec (child_parents.filter (fun p => !decide (p = "root")))) with
              | error e => rw [hv] at h; simp at h
              | ok u =>
                obtain ⟨⟩ := u
                simp only [hv] at h
                cases hmk : mkConstantNode
                    (filter_dict const_necessary_fields
                      (specToParams spec
                        (child_parents.filter (fun p => !decide (p = "root"))))) with
                | error e => simp [hmk] at h
                | ok node =>
                  simp only [hmk] at h
                  obtain ⟨nm, prs, prm, dfl, rv, sv, pnm, pprs, pprm, pdfl, prv,
                    psv, hobj⟩ := mkConstantNode_eq _ _ hmk
                  obtain ⟨sv0, vsv, d1, d2⟩ := const_valid_facts _ hv
                  obtain ⟨fnm, fprm, fdfl, frv, fsv⟩ := filter_const_fields spec
                    (child_parents.filter (fun p => !decide (p = "root")))
                  obtain rfl : sv0 = sv :=
                    Option.some.inj (vsv.symm.trans (fsv.symm.trans psv))
                  have hprs2 : prs = child_parents.filter (fun p => !decide (p = "root")) :=
                    (Option.some.inj ((filter_const_parents spec _).symm.trans pprs)).symm
                  rw [interveneBlock_none σ _ _ _ (filter_const_intervene _)] at h
                  simp only [] at h
                  rw [if_neg Bool.false_ne_true] at h
                  have he := Except.ok.inj h
                  refine ⟨node, corruption_func, by rw [← he], by rw [← he], ?_, ?_⟩
                  · rw [← he]
                    simp only []
                    rw [hobj]
                    simp [nodeLoadDraws]
                  · refine ⟨?_, ?_, hne, ?_⟩
                    · rw [hobj]
                      simp only [NodeObj.name]
                      exact (Option.some.inj (hspecname.symm.trans
                        (fnm.symm.trans pnm))).symm
                    · rw [hobj]
                      simp only [NodeObj.parentNames]
                      rw [hprs2, hcp]
                      simp [decide_not]
                    · rw [hobj]
                      simp only [ValidObj]
                      exact ⟨d1, d2⟩
            · rw [if_neg hcn] at h
              simp at h

/-- Invariant of the fresh construction scan that the reload proof
needs: every stored object satisfies the reload facts, the stream
position is the sum of the reload draw counts, and the construction
order is ready. -/
structure RTInv (edges : List (String × String)) (st : BuildState) : Prop where
  facts : ∀ p ∈ st.node_objects, NodeFacts edges p.1 p.2
  possum : st.pos = (st.node_objects.map (fun p => nodeLoadDraws p.2)).sum
  ready : ReadyOrder edges ["root"] st.node_objects

/-- One fresh scan pass preserves the reload invariant. -/
theorem scanPass_rt (σ : RStream) (cfg : Config)
    (edges : List (String × String))
    (hnr : ∀ spec ∈ cfg.node_list.getD [], spec.bias ≠ some (.str "random")) :
    ∀ (l : List NodeSpec) (st : BuildState) (added : Bool)
      (st' : BuildState) (added' : Bool),
      scanPass σ cfg false edges l st added = .ok (st', added') →
      RTInv edges st → RTInv edges st' := by
  intro l
  induction l with
  | nil =>
    intro st added st' added' h hinv
    simp only [scanPass, Except.ok.injEq, Prod.mk.injEq] at h
    rw [← h.1]
    exact hinv
  | cons spec rest ih =>
    intro st added st' added' h hinv
    simp only [scanPass] at h
    cases hn : spec.name with
    | none => rw [hn] at h; simp at h
    | some child_name =>
      rw [hn] at h
      simp only [bind, Except.bind] at h
      cases hgp : get_parents child_name edges with
      | error e => simp [hgp] at h
      | ok cps =>
        simp only [hgp] at h
        split at h
        · next hguard =>
          cases hst : buildNodeStep σ cfg false edges child_name st with
          | error e => simp [hst] at h
          | ok st2 =>
            simp only [hst] at h
            obtain ⟨obj, cf, ho, ha, hp, hnf⟩ :=
              buildNodeStep_orig σ cfg edges child_name st st2 hnr hst
            have hcps : cps = inNeighbors edges child_name := by
              rw [get_parents_eq] at hgp
              by_cases hemp : (inNeighbors edges child_name).isEmpty
              · simp [hemp] at hgp
              · simp [hemp] at hgp
                exact hgp.symm
            refine ih st2 true st' added' h ?_
            refine ⟨?_, ?_, ?_⟩
            · intro p hpmem
              rw [ho] at hpmem
              rcases List.mem_append.mp hpmem with hpm | hpm
              · exact hinv.facts p hpm
              · rw [List.mem_singleton] at hpm
                subst hpm
                exact hnf
            · rw [hp, ho, hinv.possum]
              simp
            · rw [ho]
              refine ReadyOrder_append edges st.node_objects ["root"] child_name obj
                hinv.ready ?_
              intro p hpm
              have := hguard.2 p (by rw [hcps]; exact hpm)
              simpa [BuildState.builtNames] using this
        · exact ih st added st' added' h hinv

/-- The fresh construction loop preserves the reload invariant. -/
theorem buildLoop_rt (σ : RStream) (cfg : Config)
    (edges : List (String × String)) (specs : List NodeSpec)
    (hnr : ∀ spec ∈ cfg.node_list.getD [], spec.bias ≠ some (.str "random")) :
    ∀ (fuel : ℕ) (st st' : BuildState),
      buildLoop σ cfg false specs edges fuel st = .ok st' →
      RTInv edges st → RTInv edges st' := by
  intro fuel
  induction fuel with
  | zero => intro st st' h _; simp [buildLoop] at h
  | succ f ih =>
    intro st st' h hinv
    simp only [buildLoop] at h
    split at h
    · simp only [bind, Except.bind] at h
      cases hsp : scanPass σ cfg false edges specs st false with
      | error e => simp [hsp] at h
      | ok v =>
        obtain ⟨st2, added⟩ := v
        simp only [hsp] at h
        cases added with
        | false => simp at h
        | true =>
          simp only [if_pos rfl] at h
          exact ih st2 st' h
            (scanPass_rt σ cfg edges hnr specs st false st2 true hsp hinv)
    · have he := Except.ok.inj h
      rw [← he]
      exact hinv

/-- Full computation of one loading construction step: given that the
persisted spec for the node is found and the stored object satisfies the
reload facts, the step reconstructs exactly the stored object and
consumes one draw per stored parent. -/
theorem buildNodeStep_load (σ : RStream) (savedCfg : Config)
    (edges : List (String × String)) (n : String)
    (objs : List (String × NodeObj)) (corrs : List (String × String))
    (p0 : ℕ) (obj : NodeObj) (cf : String)
    (hfind : (savedCfg.node_list.getD []).find? (fun s => s.name = some n)
      = some (nodeToYaml cf obj))
    (hnf : NodeFacts edges n obj) :
    buildNodeStep σ savedCfg true edges n ⟨objs, corrs, p0⟩
      = .ok ⟨objs ++ [(n, obj)], corrs ++ [(n, cf)], p0 + nodeLoadDraws obj⟩ := by
  obtain ⟨hname, hpar, hne, hvalid⟩ := hnf
  cases obj with
  | ws nm prs prm dfl mn mx ex st0 ba bb ct b sd act ew =>
    simp only [NodeObj.name] at hname
    subst hname
    simp only [NodeObj.parentNames] at hpar
    simp only [ValidObj] at hvalid
    obtain ⟨c1, c2, c3, c4, c5, c6⟩ := hvalid
    have hpar2 : prs = (inNeighbors edges nm).filter (fun p => !decide (p = "root")) := by
      rw [hpar]; simp [decide_not]
    have hdfl2 : (if dfl = [] then (Option.none : Option (List (String × PyVal)))
        else some dfl).getD [] = dfl := by
      cases dfl <;> simp
    rcases hew : sampleEdgeWeights σ prs p0 [] with ⟨ew2, posE⟩
    have hposE : posE = p0 + prs.length := by
      have := sampleEdgeWeights_snd σ prs p0 []
      rw [hew] at this
      simpa using this
    simp only [nodeLoadDraws]
    simp only [buildNodeStep, bind, Except.bind, decide_not]
    rw [get_parents_eq, if_neg hne]
    simp only []
    rw [← hpar2]
    simp only [get_node_parameters, hfind]
    simp only [nodeToYaml]
    simp [ws_ensure_valid_node, ensureFields, Params.hasField, node_necessary_fields,
      ws_necessary_fields, specToParams, filter_dict, mkWeightedSumNode, computeBias,
      interveneBlock, nodeLoad, bind, Except.bind, hew, hposE, hdfl2, hfind,
      nodeToYaml, c1, c2, c3, c4, c5, c6]
  | const nm prs prm dfl rv sv =>
    simp only [NodeObj.name] at hname
    subst hname
    simp only [NodeObj.parentNames] at hpar
    simp only [ValidObj] at hvalid
    obtain ⟨d1, d2⟩ := hvalid
    have hpar2 : prs = (inNeighbors edges nm).filter (fun p => !decide (p = "root")) := by
      rw [hpar]; simp [decide_not]
    have hdfl2 : (if dfl = [] then (Option.none : Option (List (String × PyVal)))
        else some dfl).getD [] = dfl := by
      cases dfl <;> simp
    simp only [nodeLoadDraws]
    simp only [buildNodeStep, bind, Except.bind, decide_not]
    rw [get_parents_eq, if_neg hne]
    simp only []
    rw [← hpar2]
    simp only [get_node_parameters, hfind]
    simp only [nodeToYaml]
    simp [const_ensure_valid_node, ensureFields, Params.hasField,
      node_necessary_fields, const_necessary_fields, specToParams, filter_dict,
      mkConstantNode, interveneBlock, nodeLoad, bind, Except.bind, hdfl2, hfind,
      nodeToYaml, d1, d2]

/-- One scan pass over the persisted node list rebuilds every remaining
stored node in order, ending in exactly the original stores and with
the position advanced by the total reload draw count. -/
theorem scanPass_load (σ : RStream) (savedCfg : Config)
    (edges : List (String × String)) (objsAll : List (String × NodeObj))
    (corrsAll : List (String × String))
    (hnames : objsAll.map Prod.fst = corrsAll.map Prod.fst)
    (hnodup : (objsAll.map Prod.fst).Nodup)
    (hfacts : ∀ p ∈ objsAll, NodeFacts edges p.1 p.2)
    (hroot : ∀ k ∈ objsAll.map Prod.fst, k ≠ "root")
    (hnl : savedCfg.node_list.getD [] = savedList corrsAll objsAll) :
    ∀ (suf pre : List (String × NodeObj)) (cpre csuf : List (String × String))
      (posL : ℕ) (added : Bool),
      objsAll = pre ++ suf → corrsAll = cpre ++ csuf →
      suf.map Prod.fst = csuf.map Prod.fst →
      ReadyOrder edges ("root" :: pre.map Prod.fst) suf →
      scanPass σ savedCfg true edges (savedList corrsAll suf) ⟨pre, cpre, posL⟩ added
        = .ok (⟨objsAll, corrsAll,
                posL + (suf.map (fun p => nodeLoadDraws p.2)).sum⟩,
               added || !suf.isEmpty) := by
  intro suf
  induction suf with
  | nil =>
    intro pre cpre csuf posL added hsplit hcsplit hfsteq _
    have hcs : csuf = [] := by
      cases csuf with
      | nil => rfl
      | cons a l => simp at hfsteq
    subst hcs
    simp only [List.append_nil] at hsplit hcsplit
    subst hsplit
    subst hcsplit
    simp [scanPass, savedList]
  | cons hd suf ih =>
    intro pre cpre csuf posL added hsplit hcsplit hfsteq hro
    obtain ⟨n, obj⟩ := hd
    cases csuf with
    | nil => simp at hfsteq
    | cons chd csuf2 =>
      obtain ⟨n2, cfv⟩ := chd
      simp only [List.map_cons, List.cons.injEq] at hfsteq
      obtain ⟨hn2, hfst2⟩ := hfsteq
      subst hn2
      have hm : (n, obj) ∈ objsAll := by rw [hsplit]; simp
      have hnf := hfacts (n, obj) hm
      have hcm : (n, cfv) ∈ corrsAll := by rw [hcsplit]; simp
      have hcnodup : (corrsAll.map Prod.fst).Nodup := hnames ▸ hnodup
      have hdg : dictGet corrsAll n = some cfv :=
        dictGet_of_mem corrsAll n cfv hcnodup hcm
      have hallnames : ∀ p ∈ objsAll, p.2.name = p.1 := fun p hp => (hfacts p hp).1
      have hfind : (savedCfg.node_list.getD []).find? (fun s => s.name = some n)
          = some (nodeToYaml cfv obj) := by
        rw [hnl, savedList_find corrsAll objsAll n obj hnodup hallnames hm, hdg]
        rfl
      have honame : obj.name = n := hnf.1
      have hone : ¬ (inNeighbors edges n).isEmpty = true := hnf.2.2.1
      have hnroot : n ≠ "root" := hroot n (by rw [hsplit]; simp)
      have hnpre : n ∉ pre.map Prod.fst := by
        rw [hsplit, List.map_append] at hnodup
        have hd2 := List.disjoint_of_nodup_append hnodup
        intro hin
        exact hd2 hin (by simp)
      obtain ⟨hready, hro2⟩ := hro
      have hguard : n ∉ BuildState.builtNames ⟨pre, cpre, posL⟩ ∧
          ∀ p ∈ inNeighbors edges n, p ∈ BuildState.builtNames ⟨pre, cpre, posL⟩ := by
        constructor
        · simp only [BuildState.builtNames, List.mem_cons]
          rintro (hr | hp)
          · exact hnroot hr
          · exact hnpre hp
        · intro p hp
          simpa [BuildState.builtNames] using hready p hp
      have hstep := buildNodeStep_load σ savedCfg edges n pre cpre posL obj cfv
        hfind hnf
      have hseen : ("root" :: pre.map Prod.fst) ++ [n]
          = "root" :: (pre ++ [(n, obj)]).map Prod.fst := by simp
      rw [hseen] at hro2
      have ih2 := ih (pre ++ [(n, obj)]) (cpre ++ [(n, cfv)]) csuf2
        (posL + nodeLoadDraws obj) true
        (by rw [hsplit]; simp) (by rw [hcsplit]; simp) hfst2 hro2
      simp only [savedList, List.map_cons]
      simp only [savedList] at ih2
      simp only [scanPass, nodeToYaml_name, honame, hdg, Option.getD_some]
      simp only [bind, Except.bind]
      rw [get_parents_eq, if_neg hone]
      simp only []
      rw [if_pos hguard]
      rw [hstep]
      simp only []
      rw [ih2]
      simp [Nat.add_assoc]

/-- A passing CustomDAG validation also certifies the underlying
name-uniqueness check and that every node name and root appear in some
edge. -/
theorem customDAG_valid_more (cfg : Config)
    (h : customDAG_ensure_valid_config cfg = .ok ()) :
    ensure_unique_names (cfg.node_list.getD []) [] = .ok () ∧
    ∀ n ∈ specNames (cfg.node_list.getD []) ++ ["root"],
      (cfg.edge_list.getD []).any (fun e => e.1 = n ∨ e.2 = n) = true := by
  simp only [customDAG_ensure_valid_config, dagGenerator_ensure_valid_config, bind,
    Except.bind] at h
  cases hnl : cfg.node_list with
  | none => rw [hnl] at h; simp at h
  | some nl =>
    simp only [hnl] at h
    cases hun : ensure_unique_names nl [] with
    | error e => simp only [hun] at h; simp at h
    | ok u =>
      obtain ⟨⟩ := u
      simp only [hun] at h
      refine ⟨by simpa using hun, ?_⟩
      cases hel : cfg.edge_list with
      | none => simp only [hel] at h; simp at h
      | some el =>
        simp only [hel] at h
        split at h
        · split at h
          · next hall2 =>
            intro n hn
            rw [List.all_eq_true] at hall2
            have hme := hall2 n (by
              simpa [hnl] using hn)
            simpa [hel] using hme
          · simp at h
        · simp at h

/-- A successful build implies the selected edge list is nonempty. -/
theorem dagBuild_ok_edges (σ : RStream) (cfg : Config) (seed : ℕ) (load : Bool)
    (m : Model) (h : dagBuild σ cfg seed load = .ok m) :
    ¬ (cfg.edge_list.getD []).isEmpty = true := by
  simp only [dagBuild, bind, Except.bind] at h
  cases hm : cfg.dag_generation_method with
  | none => simp only [hm] at h; simp at h
  | some method =>
    simp only [hm] at h
    by_cases hcd : method = "CustomDAG"
    · rw [if_pos hcd] at h
      cases hvc : customDAG_ensure_valid_config cfg with
      | error e => simp only [hvc] at h; simp at h
      | ok u =>
        obtain ⟨⟩ := u
        simp only [hvc] at h
        intro hemp
        rw [if_pos hemp] at h
        simp at h
    · rw [if_neg hcd] at h
      simp at h

/-- Fully named spec lists have as many names as entries. -/
theorem specNames_length :
    ∀ (nl : List NodeSpec), (∀ s ∈ nl, s.name.isSome) →
      (specNames nl).length = nl.length := by
  intro nl
  induction nl with
  | nil => intro _; rfl
  | cons spec rest ih =>
    intro hsome
    obtain ⟨nm, hn⟩ := Option.isSome_iff_exists.mp (hsome spec (by simp))
    have : specNames (spec :: rest) = nm :: specNames rest := by
      simp [specNames, List.filterMap_cons, hn]
    rw [this]
    simp [ih (fun s hs => hsome s (by simp [hs]))]

/-- C3 amended: serializing a freshly built model and deserializing the
persisted form reproduces the sampling-relevant state, node objects,
corruption tags, edge list and stream position, and hence an identical
first sample output, provided no node requested the random bias (which
consumes a build-time draw the reload does not repeat); the loaded
model differs only in its stored configuration and loadable flag. -/
theorem C3_amended_roundtrip (fns : SpecialFns) (seedStream : ℕ → RStream)
    (cfg : Config) (seed : ℕ) (m : Model)
    (hb : dagBuild (seedStream seed) cfg seed false = .ok m)
    (hnr : ∀ spec ∈ cfg.node_list.getD [], spec.bias ≠ some (.str "random")) :
    ∃ m2 : Model, dagLoad seedStream (Model.save m) = .ok m2 ∧
      m2.node_objects = m.node_objects ∧ m2.corr_funcs = m.corr_funcs ∧
      m2.edge_list = m.edge_list ∧ m2.pos = m.pos ∧ m2.seed = m.seed ∧
      Model.sample fns (seedStream seed) m2 []
        = Model.sample fns (seedStream seed) m [] := by
  obtain ⟨st, hbl, hvc, hmo, hmc, hme, hmp, hms, hmcfg, hml, htopo⟩ :=
    dagBuild_ok_facts (seedStream seed) cfg seed false m hb
  have hedges := dagBuild_ok_edges (seedStream seed) cfg seed false m hb
  obtain ⟨binv, hlen⟩ := buildLoop_inv (seedStream seed) cfg false
    (cfg.node_list.getD []) (cfg.edge_list.getD [])
    ((cfg.node_list.getD []).length + 1) ⟨[], [], 0⟩ st hbl
    ⟨rfl, by simp, by simp, by simp⟩
  have hrt := buildLoop_rt (seedStream seed) cfg (cfg.edge_list.getD [])
    (cfg.node_list.getD []) hnr ((cfg.node_list.getD []).length + 1)
    ⟨[], [], 0⟩ st hbl ⟨by simp, by simp, trivial⟩
  obtain ⟨hnodupS, hrootS, hendS⟩ := customDAG_valid_facts cfg hvc
  obtain ⟨hun, happears⟩ := customDAG_valid_more cfg hvc
  have hisS : ∀ s ∈ cfg.node_list.getD [], s.name.isSome :=
    ensure_unique_names_isSome _ [] hun
  have hroot_keys : ∀ k ∈ st.node_objects.map Prod.fst, k ≠ "root" :=
    fun k hk => hrootS k (binv.mem_specs k hk)
  have hlenEq : st.added_nodes.length = st.node_objects.length := by
    have h2 := congrArg List.length binv.names_eq
    simpa using h2.symm
  have hlen2 : (specNames (cfg.node_list.getD [])).length
      ≤ (st.node_objects.map Prod.fst).length := by
    rw [specNames_length _ hisS]
    simpa [hlenEq] using hlen
  have hcomplete : ∀ x ∈ specNames (cfg.node_list.getD []),
      x ∈ st.node_objects.map Prod.fst :=
    mem_of_nodup_subset_le _ _ binv.nodup hnodupS binv.mem_specs hlen2
  have hSnl2 : (Model.save m).node_list
      = some (savedList st.added_nodes st.node_objects) := by
    rw [save_node_list, hmc, hmo]
  have hSnlD : (Model.save m).node_list.getD []
      = savedList st.added_nodes st.node_objects := by
    rw [hSnl2]
    rfl
  have hSel : (Model.save m).edge_list = some (cfg.edge_list.getD []) := by
    have hx : (Model.save m).edge_list = some m.edge_list := rfl
    rw [hx, hme]
  have hsavedNames : specNames (savedList st.added_nodes st.node_objects)
      = st.node_objects.map Prod.fst :=
    savedList_names _ _ (fun p hp => (hrt.facts p hp).1)
  have hEU : ensure_unique_names (savedList st.added_nodes st.node_objects) []
      = .ok () := by
    refine ensure_unique_names_ok _ [] ?_ ?_ ?_
    · intro s hs
      simp only [savedList, List.mem_map] at hs
      obtain ⟨p, hp, rfl⟩ := hs
      rw [nodeToYaml_name]
      rfl
    · rw [hsavedNames]
      exact hroot_keys
    · simp only [List.nil_append]
      rw [hsavedNames]
      exact binv.nodup
  have hDG : dagGenerator_ensure_valid_config (Model.save m) = .ok () := by
    simp only [dagGenerator_ensure_valid_config, hSnl2]
    exact hEU
  have hvalS : customDAG_ensure_valid_config (Model.save m) = .ok () := by
    simp only [customDAG_ensure_valid_config, bind, Except.bind, hDG, hSel, hSnlD,
      hsavedNames, Option.getD_some]
    split
    · split
      · rfl
      · next hcond =>
        exfalso
        apply hcond
        rw [List.all_eq_true]
        intro n hn
        rw [List.any_eq_true]
        rcases List.mem_append.mp hn with hk | hr
        · have hsn : n ∈ specNames (cfg.node_list.getD []) ++ ["root"] :=
            List.mem_append.mpr (Or.inl (binv.mem_specs n hk))
          have := happears n hsn
          rw [List.any_eq_true] at this
          obtain ⟨e, he, hpe⟩ := this
          exact ⟨e, he, hpe⟩
        · have hsn : n ∈ specNames (cfg.node_list.getD []) ++ ["root"] :=
            List.mem_append.mpr (Or.inr hr)
          have := happears n hsn
          rw [List.any_eq_true] at this
          obtain ⟨e, he, hpe⟩ := this
          exact ⟨e, he, hpe⟩
    · next hcond =>
      exfalso
      apply hcond
      rw [List.all_eq_true]
      intro e he
      rw [decide_eq_true_eq]
      obtain ⟨h1, h2⟩ := hendS e he
      constructor
      · rcases h1 with h1 | h1
        · exact List.mem_append.mpr (Or.inl (hcomplete _ h1))
        · exact List.mem_append.mpr (Or.inr (by simp [h1]))
      · rcases h2 with h2 | h2
        · exact List.mem_append.mpr (Or.inl (hcomplete _ h2))
        · exact List.mem_append.mpr (Or.inr (by simp [h2]))
  have hscan := scanPass_load (seedStream seed) (Model.save m)
    (cfg.edge_list.getD []) st.node_objects st.added_nodes binv.names_eq
    binv.nodup hrt.facts hroot_keys hSnlD st.node_objects [] [] st.added_nodes
    0 false (by simp) (by simp) binv.names_eq (by simpa using hrt.ready)
  have hloopS : buildLoop (seedStream seed) (Model.save m) true
      (savedList st.added_nodes st.node_objects) (cfg.edge_list.getD [])
      ((savedList st.added_nodes st.node_objects).length + 1) ⟨[], [], 0⟩
      = .ok ⟨st.node_objects, st.added_nodes, st.pos⟩ := by
    by_cases hN : st.node_objects = []
    · have hc0 : st.added_nodes = [] := by
        have hx := binv.names_eq
        rw [hN] at hx
        cases hadd : st.added_nodes with
        | nil => rfl
        | cons a l => rw [hadd] at hx; simp at hx
      have hp0 : st.pos = 0 := by
        rw [hrt.possum, hN]
        simp
      rw [hN, hc0, hp0]
      simp [buildLoop, savedList]
    · have hlenpos : 0 < (savedList st.added_nodes st.node_objects).length := by
        simp only [savedList, List.length_map]
        exact List.length_pos.mpr hN
      have hscan2 : scanPass (seedStream seed) (Model.save m) true
          (cfg.edge_list.getD [])
          (savedList st.added_nodes st.node_objects) ⟨[], [], 0⟩ false
          = .ok (⟨st.node_objects, st.added_nodes, st.pos⟩, true) := by
        rw [hscan]
        simp [← hrt.possum, List.isEmpty_iff, hN]
      obtain ⟨N2, hN2⟩ := Nat.exists_eq_succ_of_ne_zero
        (Nat.pos_iff_ne_zero.mp hlenpos)
      rw [Nat.succ_eq_add_one] at hN2
      simp only [buildLoop]
      rw [if_pos (by simpa using hlenpos)]
      simp only [bind, Except.bind]
      rw [hscan2]
      simp only []
      rw [if_pos trivial]
      rw [hN2]
      simp only [buildLoop]
      rw [if_neg (by
        simp only [savedList, List.length_map]
        omega)]
  have hbuildS : dagBuild (seedStream seed) (Model.save m) seed true
      = .ok ⟨st.node_objects, st.added_nodes, cfg.edge_list.getD [], st.pos,
             seed, Model.save m, true⟩ := by
    have hSm : (Model.save m).dag_generation_method = some "CustomDAG" := rfl
    simp only [dagBuild, bind, Except.bind, hSm]
    rw [if_pos (by trivial)]
    rw [hvalS]
    simp only []
    rw [hSnlD, hSel]
    simp only [Option.getD_some]
    rw [if_neg hedges]
    rw [hloopS]
    simp only []
    rw [if_pos htopo]
  have hload : dagLoad seedStream (Model.save m)
      = .ok ⟨st.node_objects, st.added_nodes, cfg.edge_list.getD [], st.pos,
             seed, Model.save m, true⟩ := by
    have hSl : (Model.save m).loadable = some true := rfl
    have hSm : (Model.save m).dag_generation_method = some "CustomDAG" := rfl
    have hSs : (Model.save m).seed = some m.seed := rfl
    simp only [dagLoad, hSl, hSm, hSs]
    rw [if_pos (by trivial)]
    rw [hms]
    exact hbuildS
  refine ⟨⟨st.node_objects, st.added_nodes, cfg.edge_list.getD [], st.pos,
           seed, Model.save m, true⟩, hload, hmo.symm, hmc.symm, hme.symm,
           hmp.symm, hms.symm, ?_⟩
  simp only [Model.sample]
  rw [hmo, hme, hmp]


/-- Witness for the amended C3 on the single-node config: its bias is
numeric, and the save-load round trip reproduces the model state and
sample output. -/
theorem C3_amended_roundtrip_witness :
    (∀ spec ∈ cfg0.node_list.getD [], spec.bias ≠ some (.str "random")) ∧
    ∃ m2 : Model, dagLoad (fun _ => sigmaNat) (Model.save m0) = .ok m2 ∧
      m2.node_objects = m0.node_objects ∧ m2.corr_funcs = m0.corr_funcs ∧
      m2.edge_list = m0.edge_list ∧ m2.pos = m0.pos ∧ m2.seed = m0.seed ∧
      Model.sample fnsId sigmaNat m2 [] = Model.sample fnsId sigmaNat m0 [] := by
  refine ⟨by decide, ?_⟩
  exact C3_amended_roundtrip fnsId (fun _ => sigmaNat) cfg0 1 m0 (by decide) (by decide)


end Causal
